import Mathlib

/-
Verification development for the unipred ingestion engine
(unipred-core: ingestion/mod.rs, storage/duck.rs, storage/lance.rs,
commands/markets.rs, commands/events.rs, domain.rs).

The Rust code is shallowly embedded: external effects (the fetch commands,
the embedder, the cancellation probe) are oracles supplied through an `Env`
record, stateful stores become explicit state threading, and the unbounded
`loop` is driven by an explicit fuel argument so that non-termination is the
observable outcome `LoopResult.outOfFuel`.
-/

set_option linter.unusedVariables false

namespace Unipred

/-- Exchanges (domain.rs `MarketSource`). -/
inductive MarketSource
  | Kalshi
  | Polymarket
  | Unknown
deriving DecidableEq, Repr

/-- Rendering of a `MarketSource` by Rust's `{:?}` formatter, used by the
ingestion loops to build embedding ids (`format!("{:?}:{}", exchange, ticker)`). -/
def MarketSource.debugName : MarketSource → String
  | .Kalshi => "Kalshi"
  | .Polymarket => "Polymarket"
  | .Unknown => "Unknown"

/-- Unified market record (proto `FetchedMarket`, as produced by
commands/markets.rs and consumed by ingestion/mod.rs and storage/duck.rs). -/
structure FetchedMarket where
  ticker : String
  source : String
  title : String
  status : String
  description : String
  outcomes : List String
  start_date : String
  end_date : String
  volume : String
  liquidity : String
  url : String
deriving DecidableEq, Repr

/-- Response of `FetchMarkets::execute` (proto `FetchedMarketList`). -/
structure FetchedMarketList where
  cursor : String
  markets : List FetchedMarket
deriving DecidableEq, Repr

/-- Unified event record (proto `FetchedEvent`, as produced by
commands/events.rs). -/
structure FetchedEvent where
  ticker : String
  source : String
  title : String
  description : String
  start_date : String
  end_date : String
  url : String
deriving DecidableEq, Repr

/-- Response of `FetchEvents::execute` (proto `FetchedEventList`). -/
structure FetchedEventList where
  cursor : String
  events : List FetchedEvent
deriving DecidableEq, Repr

/-- Row of the DuckDB `markets` table (duck.rs `init_schema`).  The
`ingested_at` column is omitted: it is filled by a database default and never
read by the engine.  `outcomes` holds the `", "`-joined string stored by
`insert_batch`. -/
structure MarketRow where
  ticker : String
  source : String
  title : String
  status : String
  description : String
  outcomes : String
  start_date : String
  end_date : String
  volume : String
  liquidity : String
  url : String
deriving DecidableEq, Repr

/-- Row of the DuckDB `events` table (duck.rs `init_schema`). -/
structure EventRow where
  ticker : String
  source : String
  title : String
  description : String
  start_date : String
  end_date : String
  url : String
deriving DecidableEq, Repr

/-- The `PRIMARY KEY (ticker, source)` of a stored market row. -/
def MarketRow.key (r : MarketRow) : String × String := (r.ticker, r.source)

/-- The `(ticker, source)` identity key of a fetched market. -/
def FetchedMarket.key (m : FetchedMarket) : String × String := (m.ticker, m.source)

/-- The `PRIMARY KEY (ticker, source)` of a stored event row. -/
def EventRow.key (r : EventRow) : String × String := (r.ticker, r.source)

/-- The `(ticker, source)` identity key of a fetched event. -/
def FetchedEvent.key (e : FetchedEvent) : String × String := (e.ticker, e.source)

/-- Column values bound by `insert_batch` for one market
(duck.rs lines 67-83; outcomes are joined with `", "`). -/
def marketToRow (m : FetchedMarket) : MarketRow :=
  { ticker := m.ticker
    source := m.source
    title := m.title
    status := m.status
    description := m.description
    outcomes := String.intercalate ", " m.outcomes
    start_date := m.start_date
    end_date := m.end_date
    volume := m.volume
    liquidity := m.liquidity
    url := m.url }

/-- Column values bound by `insert_events_batch` for one event. -/
def eventToRow (e : FetchedEvent) : EventRow :=
  { ticker := e.ticker
    source := e.source
    title := e.title
    description := e.description
    start_date := e.start_date
    end_date := e.end_date
    url := e.url }

/-- `INSERT OR REPLACE` of one row into the `markets` table: under the
`PRIMARY KEY (ticker, source)` constraint the conflicting row (if any) is
replaced in place, otherwise the row is appended. -/
def upsertMarketRow (table : List MarketRow) (r : MarketRow) : List MarketRow :=
  if table.any (fun q => decide (q.key = r.key)) then
    table.map (fun q => if q.key = r.key then r else q)
  else
    table ++ [r]

/-- `INSERT OR REPLACE` of one row into the `events` table. -/
def upsertEventRow (table : List EventRow) (r : EventRow) : List EventRow :=
  if table.any (fun q => decide (q.key = r.key)) then
    table.map (fun q => if q.key = r.key then r else q)
  else
    table ++ [r]

/-- Effect on the `markets` table of duck.rs `insert_batch`: one transaction
executing `INSERT OR REPLACE` per record, in batch order. -/
def insertMarketRows (table : List MarketRow) (ms : List FetchedMarket) : List MarketRow :=
  ms.foldl (fun t m => upsertMarketRow t (marketToRow m)) table

/-- Effect on the `events` table of duck.rs `insert_events_batch`. -/
def insertEventRows (table : List EventRow) (es : List FetchedEvent) : List EventRow :=
  es.foldl (fun t e => upsertEventRow t (eventToRow e)) table

/-- The DuckDB connection state: the two tables created by `init_schema`. -/
structure DuckStore where
  markets : List MarketRow
  events : List EventRow
deriving DecidableEq, Repr

/-- duck.rs `insert_batch`: batch insert-or-replace of markets inside one
transaction (the whole batch commits atomically at `tx.commit()`). -/
def DuckStore.insert_batch (s : DuckStore) (ms : List FetchedMarket) : DuckStore :=
  { s with markets := insertMarketRows s.markets ms }

/-- duck.rs `insert_events_batch`: batch insert-or-replace of events inside one
transaction. -/
def DuckStore.insert_events_batch (s : DuckStore) (es : List FetchedEvent) : DuckStore :=
  { s with events := insertEventRows s.events es }

/-- Number of rows of the `markets` table carrying a given key. -/
def countKey (table : List MarketRow) (k : String × String) : Nat :=
  (table.filter (fun r => decide (r.key = k))).length

/-- First row of the `markets` table carrying a given key. -/
def findRow (table : List MarketRow) (k : String × String) : Option MarketRow :=
  table.find? (fun r => decide (r.key = k))

/-- The uniqueness invariant of `PRIMARY KEY (ticker, source)`:
at most one stored row per key. -/
def UniqueKeys (table : List MarketRow) : Prop :=
  ∀ k, countKey table k ≤ 1

/-- Last record of a batch carrying a given key (the one whose payload an
`INSERT OR REPLACE` sequence leaves in place). -/
def lastWithKey : List FetchedMarket → String × String → Option FetchedMarket
  | [], _ => none
  | m :: ms, k =>
    match lastWithKey ms k with
    | some m2 => some m2
    | none => if m.key = k then some m else none

/-- lance.rs `VECTOR_DIM`: the all-MiniLM-L6-v2 embedding dimension. -/
def VECTOR_DIM : Nat := 384

/-- lance.rs `MarketEmbedding`: one row of the LanceDB `markets` table. -/
structure MarketEmbedding where
  id : String
  vector : List Float
  ticker : String
  source : String
  title : String
  description : String
  outcomes : String
deriving Repr

/-- One row of the LanceDB `events` table, with exactly the fields the
ingestion events loop populates (ingestion/mod.rs lines 184-193). -/
structure EventEmbedding where
  id : String
  vector : List Float
  ticker : String
  source : String
  title : String
  description : String
  start_date : String
  end_date : String
deriving Repr

/-- The LanceDB connection state: each table is `none` while it does not yet
exist (LanceDB's `open_table` fails on an absent table, which is why
`add_markets` consults `table_names` before choosing between `create_table`
and `open_table`).  The `Builds` counters record successful `create_index`
invocations. -/
structure LanceStore where
  markets : Option (List MarketEmbedding)
  events : Option (List EventEmbedding)
  marketIndexBuilds : Nat
  eventIndexBuilds : Nat
deriving Repr

/-- lance.rs `connect`: a fresh connection has no tables. -/
def LanceStore.connect : LanceStore :=
  { markets := none, events := none, marketIndexBuilds := 0, eventIndexBuilds := 0 }

/-- Rows of the LanceDB `markets` table (empty when the table is absent). -/
def LanceStore.marketRows (s : LanceStore) : List MarketEmbedding :=
  s.markets.getD []

/-- Rows of the LanceDB `events` table (empty when the table is absent). -/
def LanceStore.eventRows (s : LanceStore) : List EventEmbedding :=
  s.events.getD []

/-- lance.rs `create_record_batch`: builds the Arrow record batch row by row
and bails out (`anyhow::bail!`) on the first record whose vector length
differs from `VECTOR_DIM`. -/
def create_record_batch : List MarketEmbedding → Except String (List MarketEmbedding)
  | [] => .ok []
  | m :: ms =>
    if m.vector.length ≠ VECTOR_DIM then
      .error ("Vector dimension mismatch for market " ++ m.ticker)
    else
      match create_record_batch ms with
      | .error e => .error e
      | .ok batch => .ok (m :: batch)

/-- lance.rs `add_markets`: returns immediately on an empty batch (without
creating the table), otherwise builds the record batch and either creates the
`markets` table with it or appends to the existing table. -/
def LanceStore.add_markets (s : LanceStore) (markets : List MarketEmbedding) :
    Except String LanceStore :=
  if markets.isEmpty then .ok s
  else
    match create_record_batch markets with
    | .error e => .error e
    | .ok batch =>
      match s.markets with
      | some rows => .ok { s with markets := some (rows ++ batch) }
      | none => .ok { s with markets := some batch }

/-- lance.rs `create_index`: `open_table(TABLE_NAME)` fails when the `markets`
table does not exist; otherwise the `Index::Auto` build on the vector column
succeeds (rebuilding is accepted by the engine) and is counted. -/
def LanceStore.create_index (s : LanceStore) : Except String LanceStore :=
  match s.markets with
  | none => .error "Table 'markets' was not found"
  | some _ => .ok { s with marketIndexBuilds := s.marketIndexBuilds + 1 }

/-- Modelled from the spec: the events half of lance.rs (`add_events` and its
record-batch builder) is not under src/, only its callers in ingestion/mod.rs
are.  Per spec section 6, `addEvents` mirrors `addMarkets`
(create-table-if-absent then append) and the write-time vector-dimension
invariant of spec section 3 applies to every record. -/
def create_events_record_batch : List EventEmbedding → Except String (List EventEmbedding)
  | [] => .ok []
  | e :: es =>
    if e.vector.length ≠ VECTOR_DIM then
      .error ("Vector dimension mismatch for event " ++ e.ticker)
    else
      match create_events_record_batch es with
      | .error err => .error err
      | .ok batch => .ok (e :: batch)

/-- Modelled from the spec: `LanceStore::add_events` is not under src/; per
spec section 6 it creates the `events` table if absent and appends otherwise,
symmetrically to `add_markets`. -/
def LanceStore.add_events (s : LanceStore) (events : List EventEmbedding) :
    Except String LanceStore :=
  if events.isEmpty then .ok s
  else
    match create_events_record_batch events with
    | .error e => .error e
    | .ok batch =>
      match s.events with
      | some rows => .ok { s with events := some (rows ++ batch) }
      | none => .ok { s with events := some batch }

/-- Modelled from the spec: `LanceStore::create_events_index` is not under
src/; per spec section 6 (`createIndex(kind)`) it mirrors `create_index` on
the `events` table. -/
def LanceStore.create_events_index (s : LanceStore) : Except String LanceStore :=
  match s.events with
  | none => .error "Table 'events' was not found"
  | some _ => .ok { s with eventIndexBuilds := s.eventIndexBuilds + 1 }

/-- Environment of external effects consumed by one orchestrator task.
`fetchResults n` / `fetchEvents n` is the outcome of the task's n-th
market / event fetch attempt (so a mock can fail some attempts and succeed
later ones); `cancel` is the optional cancellation probe, indexed by how many
times it has been polled; `embed` is `Embedder::embed_batch`. -/
structure Env where
  fetchResults : Nat → Except String FetchedMarketList
  fetchEvents : Nat → Except String FetchedEventList
  cancel : Option (Nat → Except String Unit)
  embed : List String → Except String (List (List Float))

/-- ingestion/mod.rs lines 250-254: the unified status `"active"` is mapped to
the Kalshi API value `"open"`; every other (exchange, status) pair passes
through unchanged. -/
def translateStatus (exchange : MarketSource) (s : String) : String :=
  if exchange = MarketSource.Kalshi ∧ s = "active" then "open" else s

/-- The fields of the `FetchMarkets` command built by `ingest_loop`
(exchange, limit 100, current cursor, translated status). -/
structure FetchCall where
  exchange : MarketSource
  limit : Int
  cursor : Option String
  status : Option String
deriving DecidableEq, Repr

/-- State threaded through one `ingest_loop` task: the two stores plus an
observation trace (issued fetch commands, sleeps in milliseconds, number of
fetch attempts, number of cancellation polls, `page_count`, `total_markets`). -/
structure LoopState where
  duck : DuckStore
  lance : LanceStore
  fetchCalls : List FetchCall
  sleepsMs : List Nat
  fetchIdx : Nat
  cancelCount : Nat
  pageCount : Nat
  totalMarkets : Nat
deriving Repr

/-- The `max_pages` guard at the top of each loop iteration
(`page_count >= limit`). -/
def maxPagesReached : Option Nat → Nat → Bool
  | some limit, pageCount => decide (limit ≤ pageCount)
  | none, _ => false

/-- The `if let Some(check) = cancel_check { check()?; }` step: when a probe
is present it is polled once (its poll counter advances) and its result is
propagated. -/
def cancelStep (env : Env) (st : LoopState) : LoopState × Except String Unit :=
  match env.cancel with
  | none => (st, .ok ())
  | some check =>
    ({ st with cancelCount := st.cancelCount + 1 }, check st.cancelCount)

/-- Record one fetch attempt: the command is pushed on the trace and the
attempt index advances. -/
def recordFetch (call : FetchCall) (st : LoopState) : LoopState :=
  { st with fetchCalls := st.fetchCalls ++ [call], fetchIdx := st.fetchIdx + 1 }

/-- Record one `sleep` of the given number of milliseconds. -/
def recordSleep (ms : Nat) (st : LoopState) : LoopState :=
  { st with sleepsMs := st.sleepsMs ++ [ms] }

/-- The inner retry loop of `ingest_loop` (ingestion/mod.rs lines 238-269):
each attempt rebuilds and executes the same `FetchMarkets` command; on failure
with `retries >= max_retries` the error is surfaced, otherwise the task sleeps
`2^retries` seconds and retries with `retries + 1`.  `remaining` is
`max_retries - retries` (5 at entry), making the recursion structural; the
guard `retries >= max_retries` is exactly `remaining = 0`. -/
def fetchMarketsWithRetry (env : Env) (call : FetchCall) (retries remaining : Nat)
    (st : LoopState) : LoopState × Except String FetchedMarketList :=
  let st1 := recordFetch call st
  match env.fetchResults st.fetchIdx with
  | .ok res => (st1, .ok res)
  | .error e =>
    match remaining with
    | 0 => (st1, .error (e ++ ": Max retries exceeded"))
    | r + 1 =>
      fetchMarketsWithRetry env call (retries + 1) r (recordSleep (1000 * 2 ^ retries) st1)

/-- The `FetchMarkets` command `ingest_loop` builds for one fetch
(ingestion/mod.rs lines 241-256): exchange, limit 100, the current cursor,
and the status translated through `translateStatus`. -/
def marketsFetchCall (exchange : MarketSource) (cursor : Option String)
    (status : Option String) : FetchCall :=
  { exchange := exchange, limit := 100, cursor := cursor,
    status := status.map (translateStatus exchange) }

/-- The canonical text embedded for one market (ingestion/mod.rs
lines 288-293). -/
def marketText (m : FetchedMarket) : String :=
  "Title: " ++ m.title ++ "\nDescription: " ++ m.description ++
    "\nOutcomes: " ++ String.intercalate ", " m.outcomes

/-- The `MarketEmbedding` built for one (market, vector) pair
(ingestion/mod.rs lines 304-312). -/
def marketEmbeddingOf (exchange : MarketSource) (m : FetchedMarket) (v : List Float) :
    MarketEmbedding :=
  { id := exchange.debugName ++ ":" ++ m.ticker
    vector := v
    ticker := m.ticker
    source := m.source
    title := m.title
    description := m.description
    outcomes := String.intercalate ", " m.outcomes }

/-- Terminal outcome of a fuel-driven loop run. -/
inductive LoopResult
  | ok
  | error (e : String)
  | outOfFuel
deriving DecidableEq, Repr

/-- Outcome of one `ingest_loop` iteration: stop with a result (`break` or
`return Err`), or continue with the next cursor. -/
inductive IterOut
  | stop (r : LoopResult)
  | next (cursor : String)
deriving Repr

/-- One iteration of the `ingest_loop` body (ingestion/mod.rs lines 226-326):
max-pages guard, cancellation poll, fetch with retry (status translated to the
source vocabulary), stop on an empty page, DuckDB batch write, embedding,
LanceDB append of the zipped (market, vector) pairs, then stop on an empty or
repeated cursor or advance with the politeness sleep of 100 ms. -/
def ingestIterate (env : Env) (exchange : MarketSource) (status : Option String)
    (maxPages : Option Nat) (cursor : Option String) (st : LoopState) :
    LoopState × IterOut :=
  if maxPagesReached maxPages st.pageCount then (st, .stop .ok)
  else
    match cancelStep env st with
    | (st, .error e) => (st, .stop (.error e))
    | (st, .ok _) =>
      match fetchMarketsWithRetry env (marketsFetchCall exchange cursor status) 0 5 st with
      | (st, .error e) => (st, .stop (.error e))
      | (st, .ok response) =>
        if response.markets.isEmpty then (st, .stop .ok)
        else
          let st :=
            { st with duck := st.duck.insert_batch response.markets,
                      totalMarkets := st.totalMarkets + response.markets.length }
          match env.embed (response.markets.map marketText) with
          | .error e => (st, .stop (.error e))
          | .ok vectors =>
            let records := (response.markets.zip vectors).map
              (fun p => marketEmbeddingOf exchange p.1 p.2)
            match st.lance.add_markets records with
            | .error e => (st, .stop (.error e))
            | .ok lance2 =>
              let st := { st with lance := lance2 }
              if response.cursor = "" ∨ some response.cursor = cursor then
                (st, .stop .ok)
              else
                ({ st with pageCount := st.pageCount + 1,
                           sleepsMs := st.sleepsMs ++ [100] },
                 .next response.cursor)

/-- The `ingest_loop` `loop`, driven by explicit fuel: running out of fuel is
the observable `outOfFuel`, every `break` is `ok` and every `return Err` is
`error`. -/
def ingestLoopAux (env : Env) (exchange : MarketSource) (status : Option String)
    (maxPages : Option Nat) : Nat → Option String → LoopState → LoopState × LoopResult
  | 0, _, st => (st, .outOfFuel)
  | fuel + 1, cursor, st =>
    match ingestIterate env exchange status maxPages cursor st with
    | (st, .stop r) => (st, r)
    | (st, .next c) => ingestLoopAux env exchange status maxPages fuel (some c) st

/-- Fresh task state over given stores: cursor `None`, `page_count = 0`,
empty trace. -/
def initLoopState (duck : DuckStore) (lance : LanceStore) : LoopState :=
  { duck := duck, lance := lance, fetchCalls := [], sleepsMs := [],
    fetchIdx := 0, cancelCount := 0, pageCount := 0, totalMarkets := 0 }

/-- ingestion/mod.rs `ingest_loop`, started like the orchestrator starts it:
`cursor = None`, `page_count = 0`. -/
def ingest_loop (env : Env) (exchange : MarketSource) (status : Option String)
    (maxPages : Option Nat) (fuel : Nat) (duck : DuckStore) (lance : LanceStore) :
    LoopState × LoopResult :=
  ingestLoopAux env exchange status maxPages fuel none (initLoopState duck lance)

/-- commands/events.rs lines 60-64: the status `FetchEvents::execute` forwards
to the Kalshi client — unified `"active"` becomes `"open"`, any other status
passes through unchanged, absence passes through. -/
def FetchEvents.apiStatus : Option String → Option String
  | some s => if s = "active" then some "open" else some s
  | none => none

/-- Arguments of one `get_multiple_events` call issued by the Kalshi branch of
`FetchEvents::execute` (limit, cursor, translated status). -/
structure EventsClientCall where
  limit : Int
  cursor : Option String
  status : Option String
deriving DecidableEq, Repr

/-- State threaded through one `ingest_events_loop` task. `clientCalls` traces
the Kalshi client calls issued through `FetchEvents::execute`; `fetchIdx`
counts `execute` attempts. -/
structure EventsLoopState where
  duck : DuckStore
  lance : LanceStore
  clientCalls : List EventsClientCall
  sleepsMs : List Nat
  fetchIdx : Nat
  cancelCount : Nat
  pageCount : Nat
  totalEvents : Nat
deriving Repr

/-- The cancellation poll of `ingest_events_loop` (same probe protocol as the
markets loop). -/
def cancelStepE (env : Env) (st : EventsLoopState) : EventsLoopState × Except String Unit :=
  match env.cancel with
  | none => (st, .ok ())
  | some check =>
    ({ st with cancelCount := st.cancelCount + 1 }, check st.cancelCount)

/-- Record one `sleep` in the events loop. -/
def recordSleepE (ms : Nat) (st : EventsLoopState) : EventsLoopState :=
  { st with sleepsMs := st.sleepsMs ++ [ms] }

/-- commands/events.rs `FetchEvents::execute` for a command with limit 100:
the Kalshi branch translates the status with `apiStatus` and calls the Kalshi
client (the oracle `env.fetchEvents`); the Polymarket branch issues no client
call and returns an empty list with an empty cursor; the Unknown branch bails.
Every invocation advances the attempt index. -/
def executeFetchEvents (env : Env) (exchange : MarketSource) (cursor status : Option String)
    (st : EventsLoopState) : EventsLoopState × Except String FetchedEventList :=
  let st1 := { st with fetchIdx := st.fetchIdx + 1 }
  match exchange with
  | .Kalshi =>
    ({ st1 with clientCalls := st1.clientCalls ++
        [{ limit := 100, cursor := cursor, status := FetchEvents.apiStatus status }] },
     env.fetchEvents st.fetchIdx)
  | .Polymarket => (st1, .ok { cursor := "", events := [] })
  | .Unknown => (st1, .error "Cannot fetch events for unknown exchange")

/-- The inner retry loop of `ingest_events_loop` (ingestion/mod.rs
lines 128-154), structured exactly like `fetchMarketsWithRetry`:
`remaining = max_retries - retries`, backoff `2^retries` seconds. -/
def fetchEventsWithRetry (env : Env) (exchange : MarketSource) (cursor status : Option String)
    (retries remaining : Nat) (st : EventsLoopState) :
    EventsLoopState × Except String FetchedEventList :=
  match executeFetchEvents env exchange cursor status st with
  | (st1, .ok res) => (st1, .ok res)
  | (st1, .error e) =>
    match remaining with
    | 0 => (st1, .error (e ++ ": Max retries exceeded fetching events"))
    | r + 1 =>
      fetchEventsWithRetry env exchange cursor status (retries + 1) r
        (recordSleepE (1000 * 2 ^ retries) st1)

/-- The canonical text embedded for one event (ingestion/mod.rs
lines 169-175). -/
def eventText (e : FetchedEvent) : String :=
  "Title: " ++ e.title ++ "\nSubtitle: " ++ e.description

/-- The `EventEmbedding` built for one (event, vector) pair (ingestion/mod.rs
lines 184-193). -/
def eventEmbeddingOf (exchange : MarketSource) (e : FetchedEvent) (v : List Float) :
    EventEmbedding :=
  { id := exchange.debugName ++ ":" ++ e.ticker
    vector := v
    ticker := e.ticker
    source := e.source
    title := e.title
    description := e.description
    start_date := e.start_date
    end_date := e.end_date }

/-- One iteration of the `ingest_events_loop` body (ingestion/mod.rs
lines 116-204), mirroring `ingestIterate` with events. -/
def eventsIterate (env : Env) (exchange : MarketSource) (status : Option String)
    (maxPages : Option Nat) (cursor : Option String) (st : EventsLoopState) :
    EventsLoopState × IterOut :=
  if maxPagesReached maxPages st.pageCount then (st, .stop .ok)
  else
    match cancelStepE env st with
    | (st, .error e) => (st, .stop (.error e))
    | (st, .ok _) =>
      match fetchEventsWithRetry env exchange cursor status 0 5 st with
      | (st, .error e) => (st, .stop (.error e))
      | (st, .ok response) =>
        if response.events.isEmpty then (st, .stop .ok)
        else
          let st :=
            { st with duck := st.duck.insert_events_batch response.events,
                      totalEvents := st.totalEvents + response.events.length }
          match env.embed (response.events.map eventText) with
          | .error e => (st, .stop (.error e))
          | .ok vectors =>
            let records := (response.events.zip vectors).map
              (fun p => eventEmbeddingOf exchange p.1 p.2)
            match st.lance.add_events records with
            | .error e => (st, .stop (.error e))
            | .ok lance2 =>
              let st := { st with lance := lance2 }
              if response.cursor = "" ∨ some response.cursor = cursor then
                (st, .stop .ok)
              else
                ({ st with pageCount := st.pageCount + 1,
                           sleepsMs := st.sleepsMs ++ [100] },
                 .next response.cursor)

/-- The `ingest_events_loop` `loop`, fuel-driven like `ingestLoopAux`. -/
def ingestEventsLoopAux (env : Env) (exchange : MarketSource) (status : Option String)
    (maxPages : Option Nat) : Nat → Option String → EventsLoopState → EventsLoopState × LoopResult
  | 0, _, st => (st, .outOfFuel)
  | fuel + 1, cursor, st =>
    match eventsIterate env exchange status maxPages cursor st with
    | (st, .stop r) => (st, r)
    | (st, .next c) => ingestEventsLoopAux env exchange status maxPages fuel (some c) st

/-- Fresh events-task state over given stores. -/
def initEventsLoopState (duck : DuckStore) (lance : LanceStore) : EventsLoopState :=
  { duck := duck, lance := lance, clientCalls := [], sleepsMs := [],
    fetchIdx := 0, cancelCount := 0, pageCount := 0, totalEvents := 0 }

/-- ingestion/mod.rs `ingest_events_loop`, started like the orchestrator
starts it. -/
def ingest_events_loop (env : Env) (exchange : MarketSource) (status : Option String)
    (maxPages : Option Nat) (fuel : Nat) (duck : DuckStore) (lance : LanceStore) :
    EventsLoopState × LoopResult :=
  ingestEventsLoopAux env exchange status maxPages fuel none (initEventsLoopState duck lance)

/-- Which record kind an orchestrator task ingests. -/
inductive RecordKind
  | markets
  | events
deriving DecidableEq, Repr

/-- The parameters `IngestionEngine::run` passes to one spawned orchestrator
task (ingestion/mod.rs lines 70-85). -/
structure TaskSpec where
  exchange : MarketSource
  kind : RecordKind
  status : Option String
  maxPages : Option Nat
deriving DecidableEq, Repr

/-- ingestion/mod.rs lines 56-60: an empty exchange filter defaults to
Kalshi and Polymarket. -/
def effectiveExchanges (exchanges : List MarketSource) : List MarketSource :=
  if exchanges.isEmpty then [MarketSource.Kalshi, MarketSource.Polymarket] else exchanges

/-- ingestion/mod.rs lines 62-66: an empty status filter defaults to
`["active", "closed"]`. -/
def effectiveStatuses (statuses : List String) : List String :=
  if statuses.isEmpty then ["active", "closed"] else statuses

/-- The task list `IngestionEngine::run` spawns (ingestion/mod.rs
lines 68-85): Polymarket runs as one unfiltered markets task; every other
exchange gets one markets task per status, and Kalshi additionally one events
task per status.  Every task receives `filters.max_pages` unchanged. -/
def buildTasks (exchanges : List MarketSource) (statuses : List String)
    (maxPages : Option Nat) : List TaskSpec :=
  (effectiveExchanges exchanges).foldr (fun exchange acc =>
    (if exchange = MarketSource.Polymarket then
      [{ exchange := exchange, kind := RecordKind.markets, status := none,
         maxPages := maxPages }]
    else
      (effectiveStatuses statuses).foldr (fun s acc2 =>
        [{ exchange := exchange, kind := RecordKind.markets, status := some s,
           maxPages := maxPages }] ++
        (if exchange = MarketSource.Kalshi then
          [{ exchange := exchange, kind := RecordKind.events, status := some s,
             maxPages := maxPages }]
        else []) ++ acc2) []) ++ acc) []

/-- The shared mutable state a fan-out run threads through its tasks: the
DuckDB store behind its mutex and the LanceDB store. -/
structure Stores where
  duck : DuckStore
  lance : LanceStore
deriving Repr

/-- One spawned task, seen through its serialized effect on the shared stores
and its own result.  The engine's tasks interleave at `await` points but every
store write happens under the DuckDB mutex or a LanceDB append, so a completed
fan-out is observationally a sequence of task effects. -/
def FanoutTask : Type := Stores → Stores × Except String Unit

/-- `join_all(tasks)`: every task runs to completion — no task is cancelled or
skipped because a sibling failed — and the results are collected in
task-submission order. -/
def joinAll (tasks : List FanoutTask) (s : Stores) : Stores × List (Except String Unit) :=
  match tasks with
  | [] => (s, [])
  | t :: ts =>
    let (s1, r) := t s
    let (s2, rs) := joinAll ts s1
    (s2, r :: rs)

/-- The `for res in results { res?; }` aggregation of ingestion/mod.rs
lines 88-90: the first error in task-submission order, or success. -/
def firstError : List (Except String Unit) → Except String Unit
  | [] => .ok ()
  | .error e :: _ => .error e
  | .ok _ :: rs => firstError rs

/-- ingestion/mod.rs `IngestionEngine::run` after the task list is built
(lines 87-97): join all tasks, propagate the first error in submission order,
and only if every task succeeded invoke `create_index` and then
`create_events_index`. -/
def IngestionEngine.run (tasks : List FanoutTask) (s : Stores) : Stores × Except String Unit :=
  let (s1, results) := joinAll tasks s
  match firstError results with
  | .error e => (s1, .error e)
  | .ok _ =>
    match s1.lance.create_index with
    | .error e => (s1, .error e)
    | .ok l1 =>
      match l1.create_events_index with
      | .error e => ({ s1 with lance := l1 }, .error e)
      | .ok l2 => ({ s1 with lance := l2 }, .ok ())

/-! ### Lemmas about the DuckDB upsert -/

theorem marketToRow_key (m : FetchedMarket) : (marketToRow m).key = m.key := rfl

theorem findRow_nil (k : String × String) : findRow [] k = none := rfl

theorem findRow_cons (q : List MarketRow) (r : MarketRow) (k : String × String) :
    findRow (r :: q) k = if r.key = k then some r else findRow q k := by
  by_cases h : r.key = k
  · simp [findRow, List.find?_cons, h]
  · simp [findRow, List.find?_cons, h]

theorem countKey_nil (k : String × String) : countKey [] k = 0 := rfl

theorem countKey_cons (q : List MarketRow) (r : MarketRow) (k : String × String) :
    countKey (r :: q) k = (if r.key = k then 1 else 0) + countKey q k := by
  by_cases h : r.key = k
  · simp [countKey, List.filter_cons, h, Nat.add_comm]
  · simp [countKey, List.filter_cons, h]

/-- Replacing every row keyed `r.key` by `r` preserves every key count. -/
theorem countKey_replaceAll (t : List MarketRow) (r : MarketRow) (k : String × String) :
    countKey (t.map (fun q => if q.key = r.key then r else q)) k = countKey t k := by
  induction t with
  | nil => rfl
  | cons q qs ih =>
    rw [List.map_cons, countKey_cons, countKey_cons, ih]
    by_cases hq : q.key = r.key
    · rw [if_pos hq, hq]
    · rw [if_neg hq]

theorem findRow_replaceAll (t : List MarketRow) (r : MarketRow)
    (h : t.any (fun q => decide (q.key = r.key)) = true) :
    findRow (t.map (fun q => if q.key = r.key then r else q)) r.key = some r := by
  induction t with
  | nil => simp at h
  | cons q qs ih =>
    by_cases hq : q.key = r.key
    · simp [List.map_cons, if_pos hq, findRow_cons]
    · have h' : qs.any (fun q => decide (q.key = r.key)) = true := by
        simp only [List.any_cons, Bool.or_eq_true, decide_eq_true_eq] at h
        rcases h with h | h
        · exact absurd h hq
        · simpa using h
      simp [List.map_cons, if_neg hq, findRow_cons, hq, ih h']

theorem findRow_replaceAll_ne (t : List MarketRow) (r : MarketRow) (k : String × String)
    (hk : k ≠ r.key) :
    findRow (t.map (fun q => if q.key = r.key then r else q)) k = findRow t k := by
  induction t with
  | nil => rfl
  | cons q qs ih =>
    rw [List.map_cons, findRow_cons, findRow_cons]
    by_cases hq : q.key = r.key
    · have h1 : r.key ≠ k := fun h => hk h.symm
      have h2 : q.key ≠ k := by rw [hq]; exact h1
      rw [if_pos hq, if_neg h1, if_neg h2, ih]
    · rw [if_neg hq, ih]

theorem countKey_eq_zero_of_not_any (t : List MarketRow) (k : String × String)
    (h : t.any (fun q => decide (q.key = k)) = false) :
    countKey t k = 0 := by
  induction t with
  | nil => rfl
  | cons q qs ih =>
    simp only [List.any_cons, Bool.or_eq_false_iff, decide_eq_false_iff_not] at h
    rw [countKey_cons, if_neg h.1, ih h.2]

theorem countKey_pos_of_any (t : List MarketRow) (k : String × String)
    (h : t.any (fun q => decide (q.key = k)) = true) :
    1 ≤ countKey t k := by
  induction t with
  | nil => simp at h
  | cons q qs ih =>
    rw [countKey_cons]
    by_cases hq : q.key = k
    · simp [hq]
    · simp only [List.any_cons, Bool.or_eq_true, decide_eq_true_eq] at h
      rcases h with h | h
      · exact absurd h hq
      · have := ih (by simpa using h)
        omega

theorem countKey_append_single (t : List MarketRow) (r : MarketRow) (k : String × String) :
    countKey (t ++ [r]) k = countKey t k + (if r.key = k then 1 else 0) := by
  by_cases h : r.key = k
  · simp [countKey, List.filter_append, h]
  · simp [countKey, List.filter_append, h]

theorem findRow_append_single (t : List MarketRow) (r : MarketRow) (k : String × String)
    (h : findRow t k = none) :
    findRow (t ++ [r]) k = if r.key = k then some r else none := by
  induction t with
  | nil => simp [findRow_nil, findRow_cons, List.nil_append]
  | cons q qs ih =>
    rw [findRow_cons] at h
    by_cases hq : q.key = k
    · rw [if_pos hq] at h; exact absurd h (by simp)
    · rw [if_neg hq] at h
      simpa [List.cons_append, findRow_cons, hq] using ih h

theorem findRow_none_of_not_any (t : List MarketRow) (k : String × String)
    (h : t.any (fun q => decide (q.key = k)) = false) :
    findRow t k = none := by
  induction t with
  | nil => rfl
  | cons q qs ih =>
    simp only [List.any_cons, Bool.or_eq_false_iff, decide_eq_false_iff_not] at h
    rw [findRow_cons, if_neg h.1, ih h.2]

theorem findRow_upsert_self (t : List MarketRow) (r : MarketRow) :
    findRow (upsertMarketRow t r) r.key = some r := by
  unfold upsertMarketRow
  split
  · next h => exact findRow_replaceAll t r h
  · next h =>
    have hn := findRow_none_of_not_any t r.key (by simpa using h)
    rw [findRow_append_single t r r.key hn, if_pos rfl]

theorem findRow_append_single_ne (t : List MarketRow) (r : MarketRow) (k : String × String)
    (hk : k ≠ r.key) : findRow (t ++ [r]) k = findRow t k := by
  induction t with
  | nil =>
    rw [List.nil_append, findRow_cons, if_neg (fun h => hk h.symm), findRow_nil]
  | cons q qs ih =>
    rw [List.cons_append, findRow_cons, findRow_cons, ih]

theorem findRow_upsert_ne (t : List MarketRow) (r : MarketRow) (k : String × String)
    (hk : k ≠ r.key) :
    findRow (upsertMarketRow t r) k = findRow t k := by
  unfold upsertMarketRow
  split
  · exact findRow_replaceAll_ne t r k hk
  · exact findRow_append_single_ne t r k hk

theorem countKey_upsert_self (t : List MarketRow) (r : MarketRow) (hu : UniqueKeys t) :
    countKey (upsertMarketRow t r) r.key = 1 := by
  unfold upsertMarketRow
  split
  · next h =>
    rw [countKey_replaceAll]
    exact Nat.le_antisymm (hu r.key) (countKey_pos_of_any t r.key h)
  · next h =>
    rw [countKey_append_single, countKey_eq_zero_of_not_any t r.key (by simpa using h),
      if_pos rfl]

theorem countKey_upsert_ne (t : List MarketRow) (r : MarketRow) (k : String × String)
    (hk : k ≠ r.key) :
    countKey (upsertMarketRow t r) k = countKey t k := by
  unfold upsertMarketRow
  split
  · exact countKey_replaceAll t r k
  · rw [countKey_append_single, if_neg (fun h => hk h.symm), Nat.add_zero]

theorem UniqueKeys_upsert (t : List MarketRow) (r : MarketRow) (hu : UniqueKeys t) :
    UniqueKeys (upsertMarketRow t r) := by
  intro k
  by_cases hk : k = r.key
  · rw [hk, countKey_upsert_self t r hu]
  · rw [countKey_upsert_ne t r k hk]; exact hu k

theorem UniqueKeys_insertRows (t : List MarketRow) (ms : List FetchedMarket)
    (hu : UniqueKeys t) : UniqueKeys (insertMarketRows t ms) := by
  induction ms generalizing t with
  | nil => exact hu
  | cons m ms ih => exact ih _ (UniqueKeys_upsert _ _ hu)

theorem findRow_insertRows (t : List MarketRow) (ms : List FetchedMarket)
    (k : String × String) :
    findRow (insertMarketRows t ms) k =
      (match lastWithKey ms k with
       | some m2 => some (marketToRow m2)
       | none => findRow t k) := by
  induction ms generalizing t with
  | nil => rfl
  | cons m ms ih =>
    show findRow (insertMarketRows (upsertMarketRow t (marketToRow m)) ms) k = _
    rw [ih]
    match hl : lastWithKey ms k with
    | some m2 => simp [lastWithKey, hl]
    | none =>
      simp only [lastWithKey, hl]
      by_cases hm : m.key = k
      · subst hm
        rw [if_pos rfl, ← marketToRow_key]
        exact findRow_upsert_self t (marketToRow m)
      · rw [if_neg hm]
        exact findRow_upsert_ne t _ k
          (by rw [marketToRow_key]; exact fun h => hm h.symm)

theorem countKey_insertRows (t : List MarketRow) (ms : List FetchedMarket)
    (k : String × String) (hu : UniqueKeys t) :
    countKey (insertMarketRows t ms) k =
      (match lastWithKey ms k with
       | some _ => 1
       | none => countKey t k) := by
  induction ms generalizing t with
  | nil => rfl
  | cons m ms ih =>
    show countKey (insertMarketRows (upsertMarketRow t (marketToRow m)) ms) k = _
    rw [ih _ (UniqueKeys_upsert _ _ hu)]
    match hl : lastWithKey ms k with
    | some m2 => simp [lastWithKey, hl]
    | none =>
      simp only [lastWithKey, hl]
      by_cases hm : m.key = k
      · subst hm
        rw [if_pos rfl, ← marketToRow_key]
        exact countKey_upsert_self t _ hu
      · rw [if_neg hm]
        exact countKey_upsert_ne t _ k
          (by rw [marketToRow_key]; exact fun h => hm h.symm)

/-- A concrete market for witnesses. -/
def mkDemoMarket (ticker source title : String) : FetchedMarket :=
  { ticker := ticker, source := source, title := title, status := "active",
    description := "d", outcomes := ["Yes", "No"], start_date := "s",
    end_date := "e", volume := "1", liquidity := "2", url := "u" }

/-- C6: `DuckStore::insert_batch` is an idempotent, overwriting upsert — after
ingesting two batches that both contain a record with the same
`(ticker, source)` key but different payloads, the `markets` table holds
exactly one row for that key, carrying the payload of the later ingestion
(the last record of the second batch with that key). -/
theorem duck_upsert_overwrites (t : DuckStore) (hu : UniqueKeys t.markets)
    (b1 b2 : List FetchedMarket) (m1 m2 : FetchedMarket)
    (h1 : m1 ∈ b1) (hk : m1.key = m2.key)
    (hne : marketToRow m1 ≠ marketToRow m2)
    (h2 : lastWithKey b2 m2.key = some m2) :
    countKey ((t.insert_batch b1).insert_batch b2).markets m2.key = 1 ∧
    findRow ((t.insert_batch b1).insert_batch b2).markets m2.key =
      some (marketToRow m2) := by
  have hu1 : UniqueKeys (insertMarketRows t.markets b1) := UniqueKeys_insertRows _ _ hu
  constructor
  · show countKey (insertMarketRows (insertMarketRows t.markets b1) b2) m2.key = 1
    rw [countKey_insertRows _ _ _ hu1, h2]
  · show findRow (insertMarketRows (insertMarketRows t.markets b1) b2) m2.key = _
    rw [findRow_insertRows, h2]

/-- Witness for C6 at a concrete pair of single-record batches. -/
theorem duck_upsert_overwrites_witness :
    countKey (((DuckStore.mk [] []).insert_batch
        [mkDemoMarket "T1" "Kalshi" "old"]).insert_batch
        [mkDemoMarket "T1" "Kalshi" "new"]).markets
        (mkDemoMarket "T1" "Kalshi" "new").key = 1 ∧
    findRow (((DuckStore.mk [] []).insert_batch
        [mkDemoMarket "T1" "Kalshi" "old"]).insert_batch
        [mkDemoMarket "T1" "Kalshi" "new"]).markets
        (mkDemoMarket "T1" "Kalshi" "new").key =
      some (marketToRow (mkDemoMarket "T1" "Kalshi" "new")) :=
  duck_upsert_overwrites (DuckStore.mk [] []) (fun _ => Nat.zero_le 1)
    [mkDemoMarket "T1" "Kalshi" "old"] [mkDemoMarket "T1" "Kalshi" "new"]
    (mkDemoMarket "T1" "Kalshi" "old") (mkDemoMarket "T1" "Kalshi" "new")
    (List.mem_singleton_self _) rfl (by decide) (by decide)

/-! ### Lemmas about the LanceDB store -/

theorem create_record_batch_err (recs : List MarketEmbedding)
    (h : ∃ m ∈ recs, m.vector.length ≠ VECTOR_DIM) :
    ∃ e, create_record_batch recs = .error e := by
  induction recs with
  | nil => rcases h with ⟨m, hm, _⟩; simp at hm
  | cons m ms ih =>
    by_cases hd : m.vector.length ≠ VECTOR_DIM
    · exact ⟨"Vector dimension mismatch for market " ++ m.ticker,
        by simp [create_record_batch, hd]⟩
    · rcases h with ⟨m2, hm2, hlen⟩
      rcases List.mem_cons.mp hm2 with rfl | hmem
      · exact absurd hlen hd
      · rcases ih ⟨m2, hmem, hlen⟩ with ⟨e, he⟩
        exact ⟨e, by simp [create_record_batch, hd, he]⟩

theorem create_record_batch_ok (recs out : List MarketEmbedding)
    (h : create_record_batch recs = .ok out) :
    out = recs ∧ ∀ m ∈ recs, m.vector.length = VECTOR_DIM := by
  induction recs generalizing out with
  | nil =>
    simp only [create_record_batch] at h
    cases h
    exact ⟨rfl, by simp⟩
  | cons m ms ih =>
    by_cases hd : m.vector.length ≠ VECTOR_DIM
    · simp [create_record_batch, hd] at h
    · simp only [create_record_batch, hd, if_false, ite_false] at h
      match hb : create_record_batch ms with
      | .error e => rw [hb] at h; cases h
      | .ok batch =>
        rw [hb] at h
        cases h
        rcases ih batch hb with ⟨rfl, hall⟩
        refine ⟨rfl, ?_⟩
        intro m2 hm2
        rcases List.mem_cons.mp hm2 with rfl | hmem
        · exact Decidable.of_not_not hd
        · exact hall m2 hmem

/-- C8: the vector dimension `VECTOR_DIM = 384` is enforced at write time by
`add_markets` / `create_record_batch`: a batch containing a record with a
mismatched vector makes the whole write fail with an error (nothing silently
dropped), and any row a successful `add_markets` adds to the store carries a
vector of length exactly 384. -/
theorem vector_dim_enforced :
    (∀ (s : LanceStore) (recs : List MarketEmbedding),
      (∃ m ∈ recs, m.vector.length ≠ VECTOR_DIM) →
        ∃ e, s.add_markets recs = Except.error e) ∧
    (∀ (s : LanceStore) (recs : List MarketEmbedding) (s' : LanceStore),
      s.add_markets recs = Except.ok s' →
        ∀ r ∈ s'.marketRows, r ∈ s.marketRows ∨ r.vector.length = VECTOR_DIM) := by
  constructor
  · intro s recs h
    rcases create_record_batch_err recs h with ⟨e, he⟩
    have hne : recs.isEmpty = false := by
      rcases h with ⟨m, hm, _⟩
      cases recs
      · simp at hm
      · rfl
    exact ⟨e, by simp [LanceStore.add_markets, hne, he]⟩
  · intro s recs s' h r hr
    by_cases hemp : recs.isEmpty
    · rw [LanceStore.add_markets, if_pos hemp] at h
      cases h
      exact Or.inl hr
    · rw [LanceStore.add_markets, if_neg hemp] at h
      match hb : create_record_batch recs with
      | .error e => rw [hb] at h; cases h
      | .ok batch =>
        rw [hb] at h
        rcases create_record_batch_ok recs batch hb with ⟨heq, hall⟩
        rw [heq] at h
        match hm : s.markets with
        | some rows =>
          rw [hm] at h
          cases h
          have : r ∈ rows ++ recs := by
            simpa [LanceStore.marketRows] using hr
          rcases List.mem_append.mp this with hl | hrr
          · exact Or.inl (by simpa [LanceStore.marketRows, hm] using hl)
          · exact Or.inr (hall r hrr)
        | none =>
          rw [hm] at h
          cases h
          have : r ∈ recs := by simpa [LanceStore.marketRows] using hr
          exact Or.inr (hall r this)

/-- A record whose vector has the wrong length, for witnesses. -/
def demoBadEmbedding : MarketEmbedding :=
  { id := "Kalshi:T1", vector := [], ticker := "T1", source := "Kalshi",
    title := "t", description := "d", outcomes := "Yes, No" }

/-- Witness for C8: adding a record with an empty vector to a fresh store
fails, and an instantiation of the success-side invariant. -/
theorem vector_dim_enforced_witness :
    (∃ e, LanceStore.connect.add_markets [demoBadEmbedding] = Except.error e) ∧
    (∀ r ∈ LanceStore.connect.marketRows, r ∈ LanceStore.connect.marketRows ∨
      r.vector.length = VECTOR_DIM) :=
  ⟨vector_dim_enforced.1 LanceStore.connect [demoBadEmbedding]
      ⟨demoBadEmbedding, List.mem_singleton_self _, by decide⟩,
    vector_dim_enforced.2 LanceStore.connect [] LanceStore.connect rfl⟩

/-- C9 (amended): `create_index` succeeds — and can safely be invoked again —
whenever the `markets` table exists; but on a store holding zero rows the
table was never created (`add_markets` returns early on an empty batch and
only `create_table`s on a non-empty one), so `open_table` inside
`create_index` fails and an error is returned instead of a no-op. -/
theorem create_index_amended :
    (∀ (s : LanceStore) (rows : List MarketEmbedding), s.markets = some rows →
      ∃ s', s.create_index = Except.ok s' ∧ s'.markets = s.markets ∧
        s'.marketIndexBuilds = s.marketIndexBuilds + 1 ∧
        ∃ s'', s'.create_index = Except.ok s'') ∧
    (∀ s : LanceStore, s.markets = none → ∃ e, s.create_index = Except.error e) ∧
    (∀ s : LanceStore, s.add_markets [] = Except.ok s) := by
  refine ⟨?_, ?_, ?_⟩
  · intro s rows h
    refine ⟨{ s with marketIndexBuilds := s.marketIndexBuilds + 1 }, ?_, rfl, rfl, ?_⟩
    · rw [LanceStore.create_index, h]
    · exact ⟨_, by rw [LanceStore.create_index]; rw [show ({ s with marketIndexBuilds := s.marketIndexBuilds + 1 } : LanceStore).markets = s.markets from rfl, h]⟩
  · intro s h
    exact ⟨_, by rw [LanceStore.create_index, h]⟩
  · intro s
    rfl

/-- Witness for C9's amended statement at concrete stores. -/
theorem create_index_amended_witness :
    (∃ s', (LanceStore.mk (some []) none 0 0).create_index = Except.ok s' ∧
      s'.markets = (LanceStore.mk (some []) none 0 0).markets ∧
      s'.marketIndexBuilds = (LanceStore.mk (some []) none 0 0).marketIndexBuilds + 1 ∧
      ∃ s'', s'.create_index = Except.ok s'') ∧
    (∃ e, LanceStore.connect.create_index = Except.error e) ∧
    (LanceStore.connect.add_markets [] = Except.ok LanceStore.connect) :=
  ⟨create_index_amended.1 (LanceStore.mk (some []) none 0 0) [] rfl,
    create_index_amended.2.1 LanceStore.connect rfl,
    create_index_amended.2.2 LanceStore.connect⟩

/-- C9 counterexample: a freshly connected vector store holds zero rows, yet
`create_index` on it returns an error (the `markets` table does not exist)
instead of succeeding as a no-op. -/
theorem create_index_zero_rows_counterexample :
    LanceStore.connect.marketRows = [] ∧
    LanceStore.connect.create_index =
      Except.error "Table 'markets' was not found" :=
  ⟨rfl, rfl⟩

/-! ### Lemmas about the retry loops -/

theorem fetchMarketsWithRetry_ok (env : Env) (call : FetchCall) (retries remaining : Nat)
    (st : LoopState) (res : FetchedMarketList)
    (h : env.fetchResults st.fetchIdx = Except.ok res) :
    fetchMarketsWithRetry env call retries remaining st = (recordFetch call st, Except.ok res) := by
  unfold fetchMarketsWithRetry
  rw [h]

theorem fetchMarketsWithRetry_allFail (env : Env) (call : FetchCall) :
    ∀ (remaining retries : Nat) (st : LoopState),
      (∀ k, k ≤ remaining → ∃ e, env.fetchResults (st.fetchIdx + k) = Except.error e) →
      ∃ e' stF, fetchMarketsWithRetry env call retries remaining st = (stF, Except.error e') ∧
        stF.fetchCalls = st.fetchCalls ++ List.replicate (remaining + 1) call ∧
        stF.sleepsMs = st.sleepsMs ++
          (List.range remaining).map (fun i => 1000 * 2 ^ (retries + i)) ∧
        stF.fetchIdx = st.fetchIdx + (remaining + 1) ∧
        stF.duck = st.duck ∧ stF.lance = st.lance ∧
        stF.pageCount = st.pageCount ∧ stF.cancelCount = st.cancelCount := by
  intro remaining
  induction remaining with
  | zero =>
    intro retries st h
    rcases h 0 (Nat.le_refl 0) with ⟨e, he⟩
    rw [Nat.add_zero] at he
    refine ⟨e ++ ": Max retries exceeded", recordFetch call st, ?_, ?_, ?_, ?_, rfl, rfl, rfl, rfl⟩
    · unfold fetchMarketsWithRetry
      rw [he]
    · simp [recordFetch]
    · simp [recordFetch]
    · simp [recordFetch]
  | succ r ih =>
    intro retries st h
    rcases h 0 (Nat.zero_le _) with ⟨e, he⟩
    rw [Nat.add_zero] at he
    have hrec : fetchMarketsWithRetry env call retries (r + 1) st =
        fetchMarketsWithRetry env call (retries + 1) r
          (recordSleep (1000 * 2 ^ retries) (recordFetch call st)) := by
      conv_lhs => unfold fetchMarketsWithRetry
      rw [he]
    have hnext : ∀ k, k ≤ r →
        ∃ e, env.fetchResults
          ((recordSleep (1000 * 2 ^ retries) (recordFetch call st)).fetchIdx + k) =
          Except.error e := by
      intro k hk
      have hidx : (recordSleep (1000 * 2 ^ retries) (recordFetch call st)).fetchIdx + k =
          st.fetchIdx + (k + 1) := by
        simp [recordSleep, recordFetch]
        omega
      rw [hidx]
      exact h (k + 1) (by omega)
    rcases ih (retries + 1) _ hnext with ⟨e', stF, hres, hcalls, hsleeps, hidxF, hduck, hlance, hpc, hcc⟩
    refine ⟨e', stF, by rw [hrec]; exact hres, ?_, ?_, ?_, ?_, ?_, ?_, ?_⟩
    · rw [hcalls]
      simp [recordSleep, recordFetch, List.replicate_succ, List.append_assoc]
    · rw [hsleeps]
      have hshift : ∀ i : Nat, retries + 1 + i = retries + (i + 1) := fun i => by omega
      simp only [recordSleep, recordFetch, hshift]
      rw [List.range_succ_eq_map, List.map_cons, List.map_map]
      simp [List.append_assoc, Function.comp]
    · rw [hidxF]
      simp [recordSleep, recordFetch]
      omega
    · simp [hduck, recordSleep, recordFetch]
    · simp [hlance, recordSleep, recordFetch]
    · simp [hpc, recordSleep, recordFetch]
    · simp [hcc, recordSleep, recordFetch]

theorem fetchMarketsWithRetry_eventualOk (env : Env) (call : FetchCall) :
    ∀ (k remaining retries : Nat) (st : LoopState) (res : FetchedMarketList),
      k ≤ remaining →
      (∀ j, j < k → ∃ e, env.fetchResults (st.fetchIdx + j) = Except.error e) →
      env.fetchResults (st.fetchIdx + k) = Except.ok res →
      ∃ stF, fetchMarketsWithRetry env call retries remaining st = (stF, Except.ok res) ∧
        stF.fetchCalls = st.fetchCalls ++ List.replicate (k + 1) call ∧
        stF.sleepsMs = st.sleepsMs ++
          (List.range k).map (fun i => 1000 * 2 ^ (retries + i)) ∧
        stF.fetchIdx = st.fetchIdx + (k + 1) ∧
        stF.duck = st.duck ∧ stF.lance = st.lance := by
  intro k
  induction k with
  | zero =>
    intro remaining retries st res _ _ hok
    rw [Nat.add_zero] at hok
    refine ⟨recordFetch call st, fetchMarketsWithRetry_ok env call retries remaining st res hok,
      ?_, ?_, ?_, rfl, rfl⟩
    · simp [recordFetch]
    · simp [recordFetch]
    · simp [recordFetch]
  | succ k ih =>
    intro remaining retries st res hk hfail hok
    rcases hfail 0 (Nat.succ_pos _) with ⟨e, he⟩
    rw [Nat.add_zero] at he
    match remaining, hk with
    | r + 1, hk =>
      have hrec : fetchMarketsWithRetry env call retries (r + 1) st =
          fetchMarketsWithRetry env call (retries + 1) r
            (recordSleep (1000 * 2 ^ retries) (recordFetch call st)) := by
        conv_lhs => unfold fetchMarketsWithRetry
        rw [he]
      have hidx : ∀ j : Nat,
          (recordSleep (1000 * 2 ^ retries) (recordFetch call st)).fetchIdx + j =
            st.fetchIdx + (j + 1) := by
        intro j
        simp [recordSleep, recordFetch]
        omega
      have hfail' : ∀ j, j < k →
          ∃ e, env.fetchResults
            ((recordSleep (1000 * 2 ^ retries) (recordFetch call st)).fetchIdx + j) =
            Except.error e := by
        intro j hj
        rw [hidx j]
        exact hfail (j + 1) (by omega)
      have hok' : env.fetchResults
          ((recordSleep (1000 * 2 ^ retries) (recordFetch call st)).fetchIdx + k) =
          Except.ok res := by
        rw [hidx k]
        exact hok
      rcases ih r (retries + 1) _ res (by omega) hfail' hok' with
        ⟨stF, hres, hcalls, hsleeps, hidxF, hduck, hlance⟩
      refine ⟨stF, by rw [hrec]; exact hres, ?_, ?_, ?_, ?_, ?_⟩
      · rw [hcalls]
        simp [recordSleep, recordFetch, List.replicate_succ, List.append_assoc]
      · rw [hsleeps]
        have hshift : ∀ i : Nat, retries + 1 + i = retries + (i + 1) := fun i => by omega
        simp only [recordSleep, recordFetch, hshift]
        rw [List.range_succ_eq_map, List.map_cons, List.map_map]
        simp [List.append_assoc, Function.comp]
      · rw [hidxF]
        simp [recordSleep, recordFetch]
        omega
      · simp [hduck, recordSleep, recordFetch]
      · simp [hlance, recordSleep, recordFetch]

/-- The state update performed by the Kalshi branch of `executeFetchEvents`:
one attempt recorded, one client call traced. -/
def recordEventsFetch (cursor status : Option String) (st : EventsLoopState) : EventsLoopState :=
  { st with fetchIdx := st.fetchIdx + 1,
            clientCalls := st.clientCalls ++
              [{ limit := 100, cursor := cursor, status := FetchEvents.apiStatus status }] }

theorem executeFetchEvents_Kalshi (env : Env) (cursor status : Option String)
    (st : EventsLoopState) :
    executeFetchEvents env MarketSource.Kalshi cursor status st =
      (recordEventsFetch cursor status st, env.fetchEvents st.fetchIdx) := rfl

theorem fetchEventsWithRetry_ok (env : Env) (cursor status : Option String)
    (retries remaining : Nat) (st : EventsLoopState) (res : FetchedEventList)
    (h : env.fetchEvents st.fetchIdx = Except.ok res) :
    fetchEventsWithRetry env MarketSource.Kalshi cursor status retries remaining st =
      (recordEventsFetch cursor status st, Except.ok res) := by
  unfold fetchEventsWithRetry
  rw [executeFetchEvents_Kalshi, h]

theorem fetchEventsWithRetry_allFail (env : Env) (cursor status : Option String) :
    ∀ (remaining retries : Nat) (st : EventsLoopState),
      (∀ k, k ≤ remaining → ∃ e, env.fetchEvents (st.fetchIdx + k) = Except.error e) →
      ∃ e' stF, fetchEventsWithRetry env MarketSource.Kalshi cursor status retries remaining st =
          (stF, Except.error e') ∧
        stF.clientCalls = st.clientCalls ++ List.replicate (remaining + 1)
          (EventsClientCall.mk 100 cursor (FetchEvents.apiStatus status)) ∧
        stF.sleepsMs = st.sleepsMs ++
          (List.range remaining).map (fun i => 1000 * 2 ^ (retries + i)) ∧
        stF.fetchIdx = st.fetchIdx + (remaining + 1) ∧
        stF.duck = st.duck ∧ stF.lance = st.lance ∧
        stF.pageCount = st.pageCount ∧ stF.cancelCount = st.cancelCount := by
  intro remaining
  induction remaining with
  | zero =>
    intro retries st h
    rcases h 0 (Nat.le_refl 0) with ⟨e, he⟩
    rw [Nat.add_zero] at he
    refine ⟨e ++ ": Max retries exceeded fetching events", recordEventsFetch cursor status st,
      ?_, ?_, ?_, ?_, rfl, rfl, rfl, rfl⟩
    · unfold fetchEventsWithRetry
      rw [executeFetchEvents_Kalshi, he]
    · simp [recordEventsFetch]
    · simp [recordEventsFetch]
    · simp [recordEventsFetch]
  | succ r ih =>
    intro retries st h
    rcases h 0 (Nat.zero_le _) with ⟨e, he⟩
    rw [Nat.add_zero] at he
    have hrec : fetchEventsWithRetry env MarketSource.Kalshi cursor status retries (r + 1) st =
        fetchEventsWithRetry env MarketSource.Kalshi cursor status (retries + 1) r
          (recordSleepE (1000 * 2 ^ retries) (recordEventsFetch cursor status st)) := by
      conv_lhs => unfold fetchEventsWithRetry
      rw [executeFetchEvents_Kalshi, he]
    have hnext : ∀ k, k ≤ r →
        ∃ e, env.fetchEvents
          ((recordSleepE (1000 * 2 ^ retries) (recordEventsFetch cursor status st)).fetchIdx + k) =
          Except.error e := by
      intro k hk
      have hidx : (recordSleepE (1000 * 2 ^ retries)
          (recordEventsFetch cursor status st)).fetchIdx + k = st.fetchIdx + (k + 1) := by
        simp [recordSleepE, recordEventsFetch]
        omega
      rw [hidx]
      exact h (k + 1) (by omega)
    rcases ih (retries + 1) _ hnext with
      ⟨e', stF, hres, hcalls, hsleeps, hidxF, hduck, hlance, hpc, hcc⟩
    refine ⟨e', stF, by rw [hrec]; exact hres, ?_, ?_, ?_, ?_, ?_, ?_, ?_⟩
    · rw [hcalls]
      simp [recordSleepE, recordEventsFetch, List.replicate_succ, List.append_assoc]
    · rw [hsleeps]
      have hshift : ∀ i : Nat, retries + 1 + i = retries + (i + 1) := fun i => by omega
      simp only [recordSleepE, recordEventsFetch, hshift]
      rw [List.range_succ_eq_map, List.map_cons, List.map_map]
      simp [List.append_assoc, Function.comp]
    · rw [hidxF]
      simp [recordSleepE, recordEventsFetch]
      omega
    · simp [hduck, recordSleepE, recordEventsFetch]
    · simp [hlance, recordSleepE, recordEventsFetch]
    · simp [hpc, recordSleepE, recordEventsFetch]
    · simp [hcc, recordSleepE, recordEventsFetch]

theorem fetchEventsWithRetry_eventualOk (env : Env) (cursor status : Option String) :
    ∀ (k remaining retries : Nat) (st : EventsLoopState) (res : FetchedEventList),
      k ≤ remaining →
      (∀ j, j < k → ∃ e, env.fetchEvents (st.fetchIdx + j) = Except.error e) →
      env.fetchEvents (st.fetchIdx + k) = Except.ok res →
      ∃ stF, fetchEventsWithRetry env MarketSource.Kalshi cursor status retries remaining st =
          (stF, Except.ok res) ∧
        stF.clientCalls = st.clientCalls ++ List.replicate (k + 1)
          (EventsClientCall.mk 100 cursor (FetchEvents.apiStatus status)) ∧
        stF.sleepsMs = st.sleepsMs ++
          (List.range k).map (fun i => 1000 * 2 ^ (retries + i)) ∧
        stF.fetchIdx = st.fetchIdx + (k + 1) ∧
        stF.duck = st.duck ∧ stF.lance = st.lance := by
  intro k
  induction k with
  | zero =>
    intro remaining retries st res _ _ hok
    rw [Nat.add_zero] at hok
    refine ⟨recordEventsFetch cursor status st,
      fetchEventsWithRetry_ok env cursor status retries remaining st res hok,
      ?_, ?_, ?_, rfl, rfl⟩
    · simp [recordEventsFetch]
    · simp [recordEventsFetch]
    · simp [recordEventsFetch]
  | succ k ih =>
    intro remaining retries st res hk hfail hok
    rcases hfail 0 (Nat.succ_pos _) with ⟨e, he⟩
    rw [Nat.add_zero] at he
    match remaining, hk with
    | r + 1, hk =>
      have hrec : fetchEventsWithRetry env MarketSource.Kalshi cursor status retries (r + 1) st =
          fetchEventsWithRetry env MarketSource.Kalshi cursor status (retries + 1) r
            (recordSleepE (1000 * 2 ^ retries) (recordEventsFetch cursor status st)) := by
        conv_lhs => unfold fetchEventsWithRetry
        rw [executeFetchEvents_Kalshi, he]
      have hidx : ∀ j : Nat,
          (recordSleepE (1000 * 2 ^ retries)
            (recordEventsFetch cursor status st)).fetchIdx + j = st.fetchIdx + (j + 1) := by
        intro j
        simp [recordSleepE, recordEventsFetch]
        omega
      have hfail' : ∀ j, j < k →
          ∃ e, env.fetchEvents
            ((recordSleepE (1000 * 2 ^ retries)
              (recordEventsFetch cursor status st)).fetchIdx + j) = Except.error e := by
        intro j hj
        rw [hidx j]
        exact hfail (j + 1) (by omega)
      have hok' : env.fetchEvents
          ((recordSleepE (1000 * 2 ^ retries)
            (recordEventsFetch cursor status st)).fetchIdx + k) = Except.ok res := by
        rw [hidx k]
        exact hok
      rcases ih r (retries + 1) _ res (by omega) hfail' hok' with
        ⟨stF, hres, hcalls, hsleeps, hidxF, hduck, hlance⟩
      refine ⟨stF, by rw [hrec]; exact hres, ?_, ?_, ?_, ?_, ?_⟩
      · rw [hcalls]
        simp [recordSleepE, recordEventsFetch, List.replicate_succ, List.append_assoc]
      · rw [hsleeps]
        have hshift : ∀ i : Nat, retries + 1 + i = retries + (i + 1) := fun i => by omega
        simp only [recordSleepE, recordEventsFetch, hshift]
        rw [List.range_succ_eq_map, List.map_cons, List.map_map]
        simp [List.append_assoc, Function.comp]
      · rw [hidxF]
        simp [recordSleepE, recordEventsFetch]
        omega
      · simp [hduck, recordSleepE, recordEventsFetch]
      · simp [hlance, recordSleepE, recordEventsFetch]

/-- C2 (amended): when a page fetch fails, both ingestion loops retry while
the retry count is below 5, sleeping `2^retryCount` seconds (1s, 2s, 4s, 8s,
16s) before each retry; a permanently failing fetch fails the task after 6
fetch attempts — the initial call plus 5 retries — with cumulative backoff
delay 31 seconds, returning an error instead of retrying further; a fetch
that succeeds on attempt `k < 6` ends the retry loop with the successful page
after exactly `k + 1` attempts and backoff sleeps `2^0 .. 2^(k-1)` seconds. -/
theorem retry_backoff_amended :
    (∀ (env : Env) (call : FetchCall) (st : LoopState),
      (∀ k, k ≤ 5 → ∃ e, env.fetchResults (st.fetchIdx + k) = Except.error e) →
      ∃ e' stF, fetchMarketsWithRetry env call 0 5 st = (stF, Except.error e') ∧
        stF.fetchCalls = st.fetchCalls ++ List.replicate 6 call ∧
        stF.sleepsMs = st.sleepsMs ++ [1000, 2000, 4000, 8000, 16000] ∧
        ([1000, 2000, 4000, 8000, 16000] : List Nat).sum = 31000) ∧
    (∀ (env : Env) (call : FetchCall) (st : LoopState) (k : Nat) (res : FetchedMarketList),
      k ≤ 5 →
      (∀ j, j < k → ∃ e, env.fetchResults (st.fetchIdx + j) = Except.error e) →
      env.fetchResults (st.fetchIdx + k) = Except.ok res →
      ∃ stF, fetchMarketsWithRetry env call 0 5 st = (stF, Except.ok res) ∧
        stF.fetchCalls = st.fetchCalls ++ List.replicate (k + 1) call ∧
        stF.sleepsMs = st.sleepsMs ++ (List.range k).map (fun i => 1000 * 2 ^ i)) ∧
    (∀ (env : Env) (cursor status : Option String) (st : EventsLoopState),
      (∀ k, k ≤ 5 → ∃ e, env.fetchEvents (st.fetchIdx + k) = Except.error e) →
      ∃ e' stF, fetchEventsWithRetry env MarketSource.Kalshi cursor status 0 5 st =
          (stF, Except.error e') ∧
        stF.clientCalls = st.clientCalls ++ List.replicate 6
          (EventsClientCall.mk 100 cursor (FetchEvents.apiStatus status)) ∧
        stF.sleepsMs = st.sleepsMs ++ [1000, 2000, 4000, 8000, 16000]) ∧
    (∀ (env : Env) (cursor status : Option String) (st : EventsLoopState) (k : Nat)
        (res : FetchedEventList),
      k ≤ 5 →
      (∀ j, j < k → ∃ e, env.fetchEvents (st.fetchIdx + j) = Except.error e) →
      env.fetchEvents (st.fetchIdx + k) = Except.ok res →
      ∃ stF, fetchEventsWithRetry env MarketSource.Kalshi cursor status 0 5 st =
          (stF, Except.ok res) ∧
        stF.clientCalls = st.clientCalls ++ List.replicate (k + 1)
          (EventsClientCall.mk 100 cursor (FetchEvents.apiStatus status)) ∧
        stF.sleepsMs = st.sleepsMs ++ (List.range k).map (fun i => 1000 * 2 ^ i)) := by
  have hlist : (List.range 5).map (fun i => 1000 * 2 ^ (0 + i)) =
      ([1000, 2000, 4000, 8000, 16000] : List Nat) := by decide
  have hzero : ∀ k : Nat, (List.range k).map (fun i => 1000 * 2 ^ (0 + i)) =
      (List.range k).map (fun i => 1000 * 2 ^ i) := by
    intro k
    simp
  refine ⟨?_, ?_, ?_, ?_⟩
  · intro env call st h
    rcases fetchMarketsWithRetry_allFail env call 5 0 st h with
      ⟨e', stF, hres, hcalls, hsleeps, _⟩
    exact ⟨e', stF, hres, hcalls, by rw [hsleeps, hlist], by decide⟩
  · intro env call st k res hk hfail hok
    rcases fetchMarketsWithRetry_eventualOk env call k 5 0 st res hk hfail hok with
      ⟨stF, hres, hcalls, hsleeps, _⟩
    exact ⟨stF, hres, hcalls, by rw [hsleeps, hzero]⟩
  · intro env cursor status st h
    rcases fetchEventsWithRetry_allFail env cursor status 5 0 st h with
      ⟨e', stF, hres, hcalls, hsleeps, _⟩
    exact ⟨e', stF, hres, hcalls, by rw [hsleeps, hlist]⟩
  · intro env cursor status st k res hk hfail hok
    rcases fetchEventsWithRetry_eventualOk env cursor status k 5 0 st res hk hfail hok with
      ⟨stF, hres, hcalls, hsleeps, _⟩
    exact ⟨stF, hres, hcalls, by rw [hsleeps, hzero]⟩

/-- An environment whose fetches always fail, for witnesses. -/
def envAllFail : Env :=
  { fetchResults := fun _ => Except.error "network unreachable",
    fetchEvents := fun _ => Except.error "network unreachable",
    cancel := none,
    embed := fun _ => Except.ok [] }

/-- An environment whose fetches fail twice and then keep succeeding with an
empty page, for witnesses. -/
def envFailTwice : Env :=
  { fetchResults := fun n =>
      if n < 2 then Except.error "flaky" else Except.ok { cursor := "", markets := [] },
    fetchEvents := fun n =>
      if n < 2 then Except.error "flaky" else Except.ok { cursor := "", events := [] },
    cancel := none,
    embed := fun _ => Except.ok [] }

/-- The fetch command of a fresh Kalshi markets task. -/
def demoFetchCall : FetchCall :=
  { exchange := MarketSource.Kalshi, limit := 100, cursor := none, status := some "open" }

/-- A fresh markets-loop state over empty stores. -/
def demoLoopState : LoopState := initLoopState (DuckStore.mk [] []) LanceStore.connect

/-- A fresh events-loop state over empty stores. -/
def demoEventsState : EventsLoopState := initEventsLoopState (DuckStore.mk [] []) LanceStore.connect

/-- Witness for C2's amended statement: each of its four parts applied at a
concrete environment. -/
theorem retry_backoff_amended_witness :
    (∃ e' stF, fetchMarketsWithRetry envAllFail demoFetchCall 0 5 demoLoopState =
        (stF, Except.error e') ∧
      stF.fetchCalls = demoLoopState.fetchCalls ++ List.replicate 6 demoFetchCall ∧
      stF.sleepsMs = demoLoopState.sleepsMs ++ [1000, 2000, 4000, 8000, 16000] ∧
      ([1000, 2000, 4000, 8000, 16000] : List Nat).sum = 31000) ∧
    (∃ stF, fetchMarketsWithRetry envFailTwice demoFetchCall 0 5 demoLoopState =
        (stF, Except.ok { cursor := "", markets := [] }) ∧
      stF.fetchCalls = demoLoopState.fetchCalls ++ List.replicate 3 demoFetchCall ∧
      stF.sleepsMs = demoLoopState.sleepsMs ++ (List.range 2).map (fun i => 1000 * 2 ^ i)) ∧
    (∃ e' stF, fetchEventsWithRetry envAllFail MarketSource.Kalshi none (some "active") 0 5
        demoEventsState = (stF, Except.error e') ∧
      stF.clientCalls = demoEventsState.clientCalls ++ List.replicate 6
        (EventsClientCall.mk 100 none (FetchEvents.apiStatus (some "active"))) ∧
      stF.sleepsMs = demoEventsState.sleepsMs ++ [1000, 2000, 4000, 8000, 16000]) ∧
    (∃ stF, fetchEventsWithRetry envFailTwice MarketSource.Kalshi none (some "active") 0 5
        demoEventsState = (stF, Except.ok { cursor := "", events := [] }) ∧
      stF.clientCalls = demoEventsState.clientCalls ++ List.replicate 3
        (EventsClientCall.mk 100 none (FetchEvents.apiStatus (some "active"))) ∧
      stF.sleepsMs = demoEventsState.sleepsMs ++ (List.range 2).map (fun i => 1000 * 2 ^ i)) :=
  ⟨retry_backoff_amended.1 envAllFail demoFetchCall demoLoopState
      (fun k _ => ⟨"network unreachable", rfl⟩),
    retry_backoff_amended.2.1 envFailTwice demoFetchCall demoLoopState 2
      { cursor := "", markets := [] } (by decide)
      (fun j hj => ⟨"flaky", by
        have hlt : demoLoopState.fetchIdx + j < 2 := by
          have : demoLoopState.fetchIdx = 0 := rfl
          omega
        simp [envFailTwice, hlt]⟩)
      rfl,
    retry_backoff_amended.2.2.1 envAllFail none (some "active") demoEventsState
      (fun k _ => ⟨"network unreachable", rfl⟩),
    retry_backoff_amended.2.2.2 envFailTwice none (some "active") demoEventsState 2
      { cursor := "", events := [] } (by decide)
      (fun j hj => ⟨"flaky", by
        have hlt : demoEventsState.fetchIdx + j < 2 := by
          have : demoEventsState.fetchIdx = 0 := rfl
          omega
        simp [envFailTwice, hlt]⟩)
      rfl⟩

/-- C2 counterexample: against a permanently failing source the retry loop of
`ingest_loop` issues 6 fetch attempts — not 5 — before failing the task
(its cumulative backoff is indeed 31 seconds). -/
theorem retry_attempt_count_counterexample :
    (fetchMarketsWithRetry envAllFail demoFetchCall 0 5 demoLoopState).1.fetchCalls.length = 6 ∧
    (fetchMarketsWithRetry envAllFail demoFetchCall 0 5 demoLoopState).1.fetchCalls.length ≠ 5 ∧
    (fetchMarketsWithRetry envAllFail demoFetchCall 0 5 demoLoopState).2 =
      Except.error "network unreachable: Max retries exceeded" ∧
    (fetchMarketsWithRetry envAllFail demoFetchCall 0 5 demoLoopState).1.sleepsMs.sum = 31000 := by
  refine ⟨rfl, by decide, rfl, rfl⟩

/-! ### Structural lemmas about one loop iteration -/

theorem cancelStep_fields (env : Env) (st : LoopState) :
    (cancelStep env st).1.fetchIdx = st.fetchIdx ∧
    (cancelStep env st).1.fetchCalls = st.fetchCalls ∧
    (cancelStep env st).1.pageCount = st.pageCount ∧
    (cancelStep env st).1.duck = st.duck ∧
    (cancelStep env st).1.lance = st.lance ∧
    (cancelStep env st).1.sleepsMs = st.sleepsMs := by
  unfold cancelStep
  cases env.cancel <;> exact ⟨rfl, rfl, rfl, rfl, rfl, rfl⟩

theorem cancelStepE_fields (env : Env) (st : EventsLoopState) :
    (cancelStepE env st).1.fetchIdx = st.fetchIdx ∧
    (cancelStepE env st).1.clientCalls = st.clientCalls ∧
    (cancelStepE env st).1.pageCount = st.pageCount ∧
    (cancelStepE env st).1.duck = st.duck ∧
    (cancelStepE env st).1.lance = st.lance ∧
    (cancelStepE env st).1.sleepsMs = st.sleepsMs := by
  unfold cancelStepE
  cases env.cancel <;> exact ⟨rfl, rfl, rfl, rfl, rfl, rfl⟩

theorem fetchMarketsWithRetry_state (env : Env) (call : FetchCall) :
    ∀ (remaining retries : Nat) (st : LoopState),
      ∃ n, 0 < n ∧ n ≤ remaining + 1 ∧
        (fetchMarketsWithRetry env call retries remaining st).1.fetchCalls =
          st.fetchCalls ++ List.replicate n call ∧
        (fetchMarketsWithRetry env call retries remaining st).1.duck = st.duck ∧
        (fetchMarketsWithRetry env call retries remaining st).1.lance = st.lance ∧
        (fetchMarketsWithRetry env call retries remaining st).1.pageCount = st.pageCount ∧
        (fetchMarketsWithRetry env call retries remaining st).1.fetchIdx = st.fetchIdx + n := by
  intro remaining
  induction remaining with
  | zero =>
    intro retries st
    refine ⟨1, Nat.one_pos, Nat.le_refl 1, ?_⟩
    unfold fetchMarketsWithRetry
    cases env.fetchResults st.fetchIdx <;>
      exact ⟨by simp [recordFetch], rfl, rfl, rfl, by simp [recordFetch]⟩
  | succ r ih =>
    intro retries st
    match hf : env.fetchResults st.fetchIdx with
    | .ok res =>
      refine ⟨1, Nat.one_pos, by omega, ?_⟩
      rw [fetchMarketsWithRetry_ok env call retries (r + 1) st res hf]
      exact ⟨by simp [recordFetch], rfl, rfl, rfl, by simp [recordFetch]⟩
    | .error e =>
      have hrec : fetchMarketsWithRetry env call retries (r + 1) st =
          fetchMarketsWithRetry env call (retries + 1) r
            (recordSleep (1000 * 2 ^ retries) (recordFetch call st)) := by
        conv_lhs => unfold fetchMarketsWithRetry
        rw [hf]
      rcases ih (retries + 1) (recordSleep (1000 * 2 ^ retries) (recordFetch call st)) with
        ⟨n, hn, hnle, hcalls, hduck, hlance, hpc, hidx⟩
      refine ⟨n + 1, by omega, by omega, ?_, ?_, ?_, ?_, ?_⟩
      · rw [hrec, hcalls]
        simp [recordSleep, recordFetch, List.replicate_succ, List.append_assoc]
      · rw [hrec, hduck]; simp [recordSleep, recordFetch]
      · rw [hrec, hlance]; simp [recordSleep, recordFetch]
      · rw [hrec, hpc]; simp [recordSleep, recordFetch]
      · rw [hrec, hidx]
        simp [recordSleep, recordFetch]
        omega

theorem fetchEventsWithRetry_state (env : Env) (cursor status : Option String) :
    ∀ (remaining retries : Nat) (st : EventsLoopState),
      ∃ n, 0 < n ∧ n ≤ remaining + 1 ∧
        (fetchEventsWithRetry env MarketSource.Kalshi cursor status retries remaining st).1.clientCalls =
          st.clientCalls ++ List.replicate n
            (EventsClientCall.mk 100 cursor (FetchEvents.apiStatus status)) ∧
        (fetchEventsWithRetry env MarketSource.Kalshi cursor status retries remaining st).1.duck = st.duck ∧
        (fetchEventsWithRetry env MarketSource.Kalshi cursor status retries remaining st).1.lance = st.lance ∧
        (fetchEventsWithRetry env MarketSource.Kalshi cursor status retries remaining st).1.pageCount = st.pageCount ∧
        (fetchEventsWithRetry env MarketSource.Kalshi cursor status retries remaining st).1.fetchIdx = st.fetchIdx + n := by
  intro remaining
  induction remaining with
  | zero =>
    intro retries st
    refine ⟨1, Nat.one_pos, Nat.le_refl 1, ?_⟩
    unfold fetchEventsWithRetry
    rw [executeFetchEvents_Kalshi]
    cases env.fetchEvents st.fetchIdx <;>
      exact ⟨by simp [recordEventsFetch], rfl, rfl, rfl, by simp [recordEventsFetch]⟩
  | succ r ih =>
    intro retries st
    match hf : env.fetchEvents st.fetchIdx with
    | .ok res =>
      refine ⟨1, Nat.one_pos, by omega, ?_⟩
      rw [fetchEventsWithRetry_ok env cursor status retries (r + 1) st res hf]
      exact ⟨by simp [recordEventsFetch], rfl, rfl, rfl, by simp [recordEventsFetch]⟩
    | .error e =>
      have hrec : fetchEventsWithRetry env MarketSource.Kalshi cursor status retries (r + 1) st =
          fetchEventsWithRetry env MarketSource.Kalshi cursor status (retries + 1) r
            (recordSleepE (1000 * 2 ^ retries) (recordEventsFetch cursor status st)) := by
        conv_lhs => unfold fetchEventsWithRetry
        rw [executeFetchEvents_Kalshi, hf]
      rcases ih (retries + 1)
          (recordSleepE (1000 * 2 ^ retries) (recordEventsFetch cursor status st)) with
        ⟨n, hn, hnle, hcalls, hduck, hlance, hpc, hidx⟩
      refine ⟨n + 1, by omega, by omega, ?_, ?_, ?_, ?_, ?_⟩
      · rw [hrec, hcalls]
        simp [recordSleepE, recordEventsFetch, List.replicate_succ, List.append_assoc]
      · rw [hrec, hduck]; simp [recordSleepE, recordEventsFetch]
      · rw [hrec, hlance]; simp [recordSleepE, recordEventsFetch]
      · rw [hrec, hpc]; simp [recordSleepE, recordEventsFetch]
      · rw [hrec, hidx]
        simp [recordSleepE, recordEventsFetch]
        omega

/-- Trace shape of one `ingest_loop` iteration, for arbitrary environments:
every fetch command it records is the translated command of this iteration, a
stop outcome is never `outOfFuel`, and the `max_pages` guard stops before
fetching. -/
theorem ingestIterate_shape (env : Env) (ex : MarketSource) (status : Option String)
    (mp : Option Nat) (cursor : Option String) (st stF : LoopState) (out : IterOut)
    (h : ingestIterate env ex status mp cursor st = (stF, out)) :
    (∃ n, stF.fetchCalls = st.fetchCalls ++
      List.replicate n (marketsFetchCall ex cursor status)) ∧
    (∀ r, out = IterOut.stop r → r ≠ LoopResult.outOfFuel) ∧
    (maxPagesReached mp st.pageCount = true → stF = st ∧ out = IterOut.stop LoopResult.ok) := by
  unfold ingestIterate at h
  by_cases hmp : maxPagesReached mp st.pageCount = true
  · rw [if_pos hmp] at h
    obtain ⟨rfl, rfl⟩ := Prod.mk.injEq .. |>.mp h
    refine ⟨⟨0, by simp⟩, ?_, fun _ => ⟨rfl, rfl⟩⟩
    intro r hr
    cases hr
    simp
  · rw [if_neg hmp] at h
    rcases hc : cancelStep env st with ⟨st1, r1⟩
    rw [hc] at h
    have hfc1 : st1.fetchCalls = st.fetchCalls := by
      have := (cancelStep_fields env st).2.1
      rw [hc] at this
      exact this
    cases r1 with
    | error e =>
      simp only [] at h
      obtain ⟨rfl, rfl⟩ := Prod.mk.injEq .. |>.mp h
      refine ⟨⟨0, by simp [hfc1]⟩, ?_, fun hmp2 => absurd hmp2 hmp⟩
      intro r hr
      cases hr
      simp
    | ok u =>
      simp only [] at h
      rcases hr : fetchMarketsWithRetry env (marketsFetchCall ex cursor status) 0 5 st1 with
        ⟨st2, r2⟩
      rw [hr] at h
      rcases fetchMarketsWithRetry_state env (marketsFetchCall ex cursor status) 5 0 st1 with
        ⟨n, hn, hnle, hcalls2, hduck2, hlance2, hpc2, hidx2⟩
      rw [hr] at hcalls2 hduck2 hlance2 hpc2 hidx2
      have hcallsF : st2.fetchCalls = st.fetchCalls ++
          List.replicate n (marketsFetchCall ex cursor status) := by
        rw [hcalls2, hfc1]
      cases r2 with
      | error e =>
        simp only [] at h
        obtain ⟨rfl, rfl⟩ := Prod.mk.injEq .. |>.mp h
        refine ⟨⟨n, hcallsF⟩, ?_, fun hmp2 => absurd hmp2 hmp⟩
        intro r hr
        cases hr
        simp
      | ok response =>
        simp only [] at h
        by_cases hemp : response.markets.isEmpty = true
        · rw [if_pos hemp] at h
          obtain ⟨rfl, rfl⟩ := Prod.mk.injEq .. |>.mp h
          refine ⟨⟨n, hcallsF⟩, ?_, fun hmp2 => absurd hmp2 hmp⟩
          intro r hr
          cases hr
          simp
        · rw [if_neg hemp] at h
          cases he : env.embed (response.markets.map marketText) with
          | error e =>
            rw [he] at h
            simp only [] at h
            obtain ⟨rfl, rfl⟩ := Prod.mk.injEq .. |>.mp h
            refine ⟨⟨n, hcallsF⟩, ?_, fun hmp2 => absurd hmp2 hmp⟩
            intro r hr
            cases hr
            simp
          | ok vectors =>
            rw [he] at h
            simp only [] at h
            cases ha : LanceStore.add_markets
                { st2 with duck := st2.duck.insert_batch response.markets,
                           totalMarkets := st2.totalMarkets + response.markets.length }.lance
                ((response.markets.zip vectors).map
                  (fun p => marketEmbeddingOf ex p.1 p.2)) with
            | error e =>
              rw [ha] at h
              simp only [] at h
              obtain ⟨rfl, rfl⟩ := Prod.mk.injEq .. |>.mp h
              refine ⟨⟨n, hcallsF⟩, ?_, fun hmp2 => absurd hmp2 hmp⟩
              intro r hr
              cases hr
              simp
            | ok lance2 =>
              rw [ha] at h
              simp only [] at h
              by_cases hcur : response.cursor = "" ∨ some response.cursor = cursor
              · rw [if_pos hcur] at h
                obtain ⟨rfl, rfl⟩ := Prod.mk.injEq .. |>.mp h
                refine ⟨⟨n, hcallsF⟩, ?_, fun hmp2 => absurd hmp2 hmp⟩
                intro r hr
                cases hr
                simp
              · rw [if_neg hcur] at h
                obtain ⟨rfl, rfl⟩ := Prod.mk.injEq .. |>.mp h
                refine ⟨⟨n, hcallsF⟩, ?_, fun hmp2 => absurd hmp2 hmp⟩
                intro r hr
                cases hr

/-- Behaviour of one `ingest_loop` iteration against a source whose fetches
all succeed (`pages n` is the n-th response): at most one fetch is issued, and
a `next` outcome means the guard passed, the page was non-empty, its cursor
non-empty and different from the consumed cursor, and the attempt index
advanced by one. -/
theorem ingestIterate_advance (env : Env) (ex : MarketSource) (status : Option String)
    (mp : Option Nat) (cursor : Option String) (st stF : LoopState) (out : IterOut)
    (pages : Nat → FetchedMarketList)
    (henv : ∀ n, env.fetchResults n = Except.ok (pages n))
    (h : ingestIterate env ex status mp cursor st = (stF, out)) :
    stF.fetchCalls.length ≤ st.fetchCalls.length + 1 ∧
    (∀ c, out = IterOut.next c →
      stF.pageCount = st.pageCount + 1 ∧
      maxPagesReached mp st.pageCount = false ∧
      stF.fetchIdx = st.fetchIdx + 1 ∧
      (pages st.fetchIdx).markets ≠ [] ∧
      (pages st.fetchIdx).cursor ≠ "" ∧
      some (pages st.fetchIdx).cursor ≠ cursor ∧
      c = (pages st.fetchIdx).cursor) := by
  unfold ingestIterate at h
  by_cases hmp : maxPagesReached mp st.pageCount = true
  · rw [if_pos hmp] at h
    obtain ⟨rfl, rfl⟩ := Prod.mk.injEq .. |>.mp h
    exact ⟨Nat.le_succ _, fun c hc => by cases hc⟩
  · rw [if_neg hmp] at h
    rcases hc : cancelStep env st with ⟨st1, r1⟩
    rw [hc] at h
    have hfields := cancelStep_fields env st
    rw [hc] at hfields
    have hfidx : st1.fetchIdx = st.fetchIdx := hfields.1
    have hfc1 : st1.fetchCalls = st.fetchCalls := hfields.2.1
    have hpc1 : st1.pageCount = st.pageCount := hfields.2.2.1
    cases r1 with
    | error e =>
      simp only [] at h
      obtain ⟨rfl, rfl⟩ := Prod.mk.injEq .. |>.mp h
      exact ⟨by rw [hfc1]; exact Nat.le_succ _, fun c hc => by cases hc⟩
    | ok u =>
      simp only [] at h
      rw [fetchMarketsWithRetry_ok env (marketsFetchCall ex cursor status) 0 5 st1
        (pages st1.fetchIdx) (henv st1.fetchIdx)] at h
      rw [hfidx] at h
      simp only [] at h
      have hlen : (recordFetch (marketsFetchCall ex cursor status) st1).fetchCalls.length =
          st.fetchCalls.length + 1 := by
        simp [recordFetch, hfc1]
      have hidx2 : (recordFetch (marketsFetchCall ex cursor status) st1).fetchIdx =
          st.fetchIdx + 1 := by
        simp [recordFetch, hfidx]
      by_cases hemp : (pages st.fetchIdx).markets.isEmpty = true
      · rw [if_pos hemp] at h
        obtain ⟨rfl, rfl⟩ := Prod.mk.injEq .. |>.mp h
        exact ⟨by rw [hlen], fun c hc => by cases hc⟩
      · rw [if_neg hemp] at h
        cases he : env.embed ((pages st.fetchIdx).markets.map marketText) with
        | error e =>
          rw [he] at h
          simp only [] at h
          obtain ⟨rfl, rfl⟩ := Prod.mk.injEq .. |>.mp h
          exact ⟨by simp [recordFetch, hfc1], fun c hc => by cases hc⟩
        | ok vectors =>
          rw [he] at h
          simp only [] at h
          cases ha : (recordFetch (marketsFetchCall ex cursor status) st1).lance.add_markets
              (((pages st.fetchIdx).markets.zip vectors).map
                (fun p => marketEmbeddingOf ex p.1 p.2)) with
          | error e =>
            rw [ha] at h
            simp only [] at h
            obtain ⟨rfl, rfl⟩ := Prod.mk.injEq .. |>.mp h
            exact ⟨by simp [recordFetch, hfc1], fun c hc => by cases hc⟩
          | ok lance2 =>
            rw [ha] at h
            simp only [] at h
            by_cases hcur : (pages st.fetchIdx).cursor = "" ∨
                some (pages st.fetchIdx).cursor = cursor
            · rw [if_pos hcur] at h
              obtain ⟨rfl, rfl⟩ := Prod.mk.injEq .. |>.mp h
              exact ⟨by simp [recordFetch, hfc1], fun c hc => by cases hc⟩
            · rw [if_neg hcur] at h
              obtain ⟨rfl, rfl⟩ := Prod.mk.injEq .. |>.mp h
              push_neg at hcur
              refine ⟨by simp [recordFetch, hfc1], fun c hc => ?_⟩
              cases hc
              refine ⟨by simp [recordFetch, hpc1], ?_, by simp [recordFetch, hfidx], ?_,
                hcur.1, hcur.2, rfl⟩
              · cases hb : maxPagesReached mp st.pageCount
                · rfl
                · exact absurd hb hmp
              · intro hnil
                rw [hnil] at hemp
                exact hemp rfl

/-- Trace shape of one `ingest_events_loop` iteration (Kalshi task), for
arbitrary environments. -/
theorem eventsIterate_shape (env : Env) (status : Option String)
    (mp : Option Nat) (cursor : Option String) (st stF : EventsLoopState) (out : IterOut)
    (h : eventsIterate env MarketSource.Kalshi status mp cursor st = (stF, out)) :
    (∃ n, stF.clientCalls = st.clientCalls ++
      List.replicate n (EventsClientCall.mk 100 cursor (FetchEvents.apiStatus status))) ∧
    (∀ r, out = IterOut.stop r → r ≠ LoopResult.outOfFuel) ∧
    (maxPagesReached mp st.pageCount = true → stF = st ∧ out = IterOut.stop LoopResult.ok) := by
  unfold eventsIterate at h
  by_cases hmp : maxPagesReached mp st.pageCount = true
  · rw [if_pos hmp] at h
    obtain ⟨rfl, rfl⟩ := Prod.mk.injEq .. |>.mp h
    refine ⟨⟨0, by simp⟩, ?_, fun _ => ⟨rfl, rfl⟩⟩
    intro r hr
    cases hr
    simp
  · rw [if_neg hmp] at h
    rcases hc : cancelStepE env st with ⟨st1, r1⟩
    rw [hc] at h
    have hfc1 : st1.clientCalls = st.clientCalls := by
      have := (cancelStepE_fields env st).2.1
      rw [hc] at this
      exact this
    cases r1 with
    | error e =>
      simp only [] at h
      obtain ⟨rfl, rfl⟩ := Prod.mk.injEq .. |>.mp h
      refine ⟨⟨0, by simp [hfc1]⟩, ?_, fun hmp2 => absurd hmp2 hmp⟩
      intro r hr
      cases hr
      simp
    | ok u =>
      simp only [] at h
      rcases hr : fetchEventsWithRetry env MarketSource.Kalshi cursor status 0 5 st1 with
        ⟨st2, r2⟩
      rw [hr] at h
      rcases fetchEventsWithRetry_state env cursor status 5 0 st1 with
        ⟨n, hn, hnle, hcalls2, hduck2, hlance2, hpc2, hidx2⟩
      rw [hr] at hcalls2 hduck2 hlance2 hpc2 hidx2
      have hcallsF : st2.clientCalls = st.clientCalls ++ List.replicate n
          (EventsClientCall.mk 100 cursor (FetchEvents.apiStatus status)) := by
        rw [hcalls2, hfc1]
      cases r2 with
      | error e =>
        simp only [] at h
        obtain ⟨rfl, rfl⟩ := Prod.mk.injEq .. |>.mp h
        refine ⟨⟨n, hcallsF⟩, ?_, fun hmp2 => absurd hmp2 hmp⟩
        intro r hr
        cases hr
        simp
      | ok response =>
        simp only [] at h
        by_cases hemp : response.events.isEmpty = true
        · rw [if_pos hemp] at h
          obtain ⟨rfl, rfl⟩ := Prod.mk.injEq .. |>.mp h
          refine ⟨⟨n, hcallsF⟩, ?_, fun hmp2 => absurd hmp2 hmp⟩
          intro r hr
          cases hr
          simp
        · rw [if_neg hemp] at h
          cases he : env.embed (response.events.map eventText) with
          | error e =>
            rw [he] at h
            simp only [] at h
            obtain ⟨rfl, rfl⟩ := Prod.mk.injEq .. |>.mp h
            refine ⟨⟨n, hcallsF⟩, ?_, fun hmp2 => absurd hmp2 hmp⟩
            intro r hr
            cases hr
            simp
          | ok vectors =>
            rw [he] at h
            simp only [] at h
            cases ha : st2.lance.add_events
                ((response.events.zip vectors).map
                  (fun p => eventEmbeddingOf MarketSource.Kalshi p.1 p.2)) with
            | error e =>
              rw [ha] at h
              simp only [] at h
              obtain ⟨rfl, rfl⟩ := Prod.mk.injEq .. |>.mp h
              refine ⟨⟨n, hcallsF⟩, ?_, fun hmp2 => absurd hmp2 hmp⟩
              intro r hr
              cases hr
              simp
            | ok lance2 =>
              rw [ha] at h
              simp only [] at h
              by_cases hcur : response.cursor = "" ∨ some response.cursor = cursor
              · rw [if_pos hcur] at h
                obtain ⟨rfl, rfl⟩ := Prod.mk.injEq .. |>.mp h
                refine ⟨⟨n, hcallsF⟩, ?_, fun hmp2 => absurd hmp2 hmp⟩
                intro r hr
                cases hr
                simp
              · rw [if_neg hcur] at h
                obtain ⟨rfl, rfl⟩ := Prod.mk.injEq .. |>.mp h
                refine ⟨⟨n, hcallsF⟩, ?_, fun hmp2 => absurd hmp2 hmp⟩
                intro r hr
                cases hr

/-- Behaviour of one `ingest_events_loop` iteration (Kalshi task) against a
source whose fetches all succeed. -/
theorem eventsIterate_advance (env : Env) (status : Option String)
    (mp : Option Nat) (cursor : Option String) (st stF : EventsLoopState) (out : IterOut)
    (epages : Nat → FetchedEventList)
    (henv : ∀ n, env.fetchEvents n = Except.ok (epages n))
    (h : eventsIterate env MarketSource.Kalshi status mp cursor st = (stF, out)) :
    stF.fetchIdx ≤ st.fetchIdx + 1 ∧
    (∀ c, out = IterOut.next c →
      stF.pageCount = st.pageCount + 1 ∧
      maxPagesReached mp st.pageCount = false ∧
      stF.fetchIdx = st.fetchIdx + 1 ∧
      (epages st.fetchIdx).events ≠ [] ∧
      (epages st.fetchIdx).cursor ≠ "" ∧
      some (epages st.fetchIdx).cursor ≠ cursor ∧
      c = (epages st.fetchIdx).cursor) := by
  unfold eventsIterate at h
  by_cases hmp : maxPagesReached mp st.pageCount = true
  · rw [if_pos hmp] at h
    obtain ⟨rfl, rfl⟩ := Prod.mk.injEq .. |>.mp h
    exact ⟨Nat.le_succ _, fun c hc => by cases hc⟩
  · rw [if_neg hmp] at h
    rcases hc : cancelStepE env st with ⟨st1, r1⟩
    rw [hc] at h
    have hfields := cancelStepE_fields env st
    rw [hc] at hfields
    have hfidx : st1.fetchIdx = st.fetchIdx := hfields.1
    have hpc1 : st1.pageCount = st.pageCount := hfields.2.2.1
    cases r1 with
    | error e =>
      simp only [] at h
      obtain ⟨rfl, rfl⟩ := Prod.mk.injEq .. |>.mp h
      exact ⟨by rw [hfidx]; exact Nat.le_succ _, fun c hc => by cases hc⟩
    | ok u =>
      simp only [] at h
      rw [fetchEventsWithRetry_ok env cursor status 0 5 st1
        (epages st1.fetchIdx) (henv st1.fetchIdx)] at h
      rw [hfidx] at h
      simp only [] at h
      by_cases hemp : (epages st.fetchIdx).events.isEmpty = true
      · rw [if_pos hemp] at h
        obtain ⟨rfl, rfl⟩ := Prod.mk.injEq .. |>.mp h
        exact ⟨by simp [recordEventsFetch, hfidx], fun c hc => by cases hc⟩
      · rw [if_neg hemp] at h
        cases he : env.embed ((epages st.fetchIdx).events.map eventText) with
        | error e =>
          rw [he] at h
          simp only [] at h
          obtain ⟨rfl, rfl⟩ := Prod.mk.injEq .. |>.mp h
          exact ⟨by simp [recordEventsFetch, hfidx], fun c hc => by cases hc⟩
        | ok vectors =>
          rw [he] at h
          simp only [] at h
          cases ha : (recordEventsFetch cursor status st1).lance.add_events
              (((epages st.fetchIdx).events.zip vectors).map
                (fun p => eventEmbeddingOf MarketSource.Kalshi p.1 p.2)) with
          | error e =>
            rw [ha] at h
            simp only [] at h
            obtain ⟨rfl, rfl⟩ := Prod.mk.injEq .. |>.mp h
            exact ⟨by simp [recordEventsFetch, hfidx], fun c hc => by cases hc⟩
          | ok lance2 =>
            rw [ha] at h
            simp only [] at h
            by_cases hcur : (epages st.fetchIdx).cursor = "" ∨
                some (epages st.fetchIdx).cursor = cursor
            · rw [if_pos hcur] at h
              obtain ⟨rfl, rfl⟩ := Prod.mk.injEq .. |>.mp h
              exact ⟨by simp [recordEventsFetch, hfidx], fun c hc => by cases hc⟩
            · rw [if_neg hcur] at h
              obtain ⟨rfl, rfl⟩ := Prod.mk.injEq .. |>.mp h
              push_neg at hcur
              refine ⟨by simp [recordEventsFetch, hfidx], fun c hc => ?_⟩
              cases hc
              refine ⟨by simp [recordEventsFetch, hpc1], ?_,
                by simp [recordEventsFetch, hfidx], ?_, hcur.1, hcur.2, rfl⟩
              · cases hb : maxPagesReached mp st.pageCount
                · rfl
                · exact absurd hb hmp
              · intro hnil
                rw [hnil] at hemp
                exact hemp rfl

/-! ### Termination of the ingestion loops (C1) -/

/-- The cursor `ingest_loop` has consumed before its n-th fetch, when every
fetch succeeds: `None` initially, then the cursor of the previous page. -/
def pageCursorSeq (pages : Nat → FetchedMarketList) : Nat → Option String
  | 0 => none
  | n + 1 => some (pages n).cursor

/-- The cursor `ingest_events_loop` has consumed before its n-th fetch. -/
def eventCursorSeq (epages : Nat → FetchedEventList) : Nat → Option String
  | 0 => none
  | n + 1 => some (epages n).cursor

/-- Page n lets the markets loop advance: non-empty record set, non-empty
cursor, and a cursor different from the one just consumed. -/
def advancingPage (pages : Nat → FetchedMarketList) (n : Nat) : Prop :=
  (pages n).markets ≠ [] ∧ (pages n).cursor ≠ "" ∧
    some (pages n).cursor ≠ pageCursorSeq pages n

/-- Page n lets the events loop advance. -/
def advancingEventPage (epages : Nat → FetchedEventList) (n : Nat) : Prop :=
  (epages n).events ≠ [] ∧ (epages n).cursor ≠ "" ∧
    some (epages n).cursor ≠ eventCursorSeq epages n

theorem ingestLoopAux_term (env : Env) (ex : MarketSource) (status : Option String)
    (mp : Option Nat) (pages : Nat → FetchedMarketList)
    (henv : ∀ n, env.fetchResults n = Except.ok (pages n)) :
    ∀ (fuel : Nat) (cursor : Option String) (st : LoopState) (N : Nat),
      cursor = pageCursorSeq pages st.fetchIdx →
      st.fetchIdx ≤ N →
      ¬ advancingPage pages N →
      N < st.fetchIdx + fuel →
      (ingestLoopAux env ex status mp fuel cursor st).2 ≠ LoopResult.outOfFuel := by
  intro fuel
  induction fuel with
  | zero =>
    intro cursor st N _ hle _ hlt
    omega
  | succ f ih =>
    intro cursor st N hcur hle htrig hlt
    rcases hit : ingestIterate env ex status mp cursor st with ⟨st2, o⟩
    cases o with
    | stop r =>
      have hres : ingestLoopAux env ex status mp (f + 1) cursor st = (st2, r) := by
        rw [ingestLoopAux, hit]
      rw [hres]
      exact (ingestIterate_shape env ex status mp cursor st st2 _ hit).2.1 r rfl
    | next c =>
      have hres : ingestLoopAux env ex status mp (f + 1) cursor st =
          ingestLoopAux env ex status mp f (some c) st2 := by
        rw [ingestLoopAux, hit]
      rw [hres]
      obtain ⟨hpc, hmp2, hidx, hne, hcne, hcnec, hceq⟩ :=
        (ingestIterate_advance env ex status mp cursor st st2 _ pages henv hit).2 c rfl
      have hadvIdx : advancingPage pages st.fetchIdx :=
        ⟨hne, hcne, by rw [← hcur]; exact hcnec⟩
      have hNe : st.fetchIdx ≠ N := fun hh => htrig (hh ▸ hadvIdx)
      refine ih (some c) st2 N ?_ (by omega) htrig (by omega)
      rw [hidx, hceq]
      rfl

theorem ingestEventsLoopAux_term (env : Env) (status : Option String)
    (mp : Option Nat) (epages : Nat → FetchedEventList)
    (henv : ∀ n, env.fetchEvents n = Except.ok (epages n)) :
    ∀ (fuel : Nat) (cursor : Option String) (st : EventsLoopState) (N : Nat),
      cursor = eventCursorSeq epages st.fetchIdx →
      st.fetchIdx ≤ N →
      ¬ advancingEventPage epages N →
      N < st.fetchIdx + fuel →
      (ingestEventsLoopAux env MarketSource.Kalshi status mp fuel cursor st).2 ≠
        LoopResult.outOfFuel := by
  intro fuel
  induction fuel with
  | zero =>
    intro cursor st N _ hle _ hlt
    omega
  | succ f ih =>
    intro cursor st N hcur hle htrig hlt
    rcases hit : eventsIterate env MarketSource.Kalshi status mp cursor st with ⟨st2, o⟩
    cases o with
    | stop r =>
      have hres : ingestEventsLoopAux env MarketSource.Kalshi status mp (f + 1) cursor st =
          (st2, r) := by
        rw [ingestEventsLoopAux, hit]
      rw [hres]
      exact (eventsIterate_shape env status mp cursor st st2 _ hit).2.1 r rfl
    | next c =>
      have hres : ingestEventsLoopAux env MarketSource.Kalshi status mp (f + 1) cursor st =
          ingestEventsLoopAux env MarketSource.Kalshi status mp f (some c) st2 := by
        rw [ingestEventsLoopAux, hit]
      rw [hres]
      obtain ⟨hpc, hmp2, hidx, hne, hcne, hcnec, hceq⟩ :=
        (eventsIterate_advance env status mp cursor st st2 _ epages henv hit).2 c rfl
      have hadvIdx : advancingEventPage epages st.fetchIdx :=
        ⟨hne, hcne, by rw [← hcur]; exact hcnec⟩
      have hNe : st.fetchIdx ≠ N := fun hh => htrig (hh ▸ hadvIdx)
      refine ih (some c) st2 N ?_ (by omega) htrig (by omega)
      rw [hidx, hceq]
      rfl

/-- C1: for every source whose successful page stream eventually produces an
empty record set, an empty cursor, or a cursor equal to the cursor just
consumed (which covers every finite page stream), both `ingest_loop` and
`ingest_events_loop` terminate after finitely many iterations — there is a
fuel bound at which the fuel-driven loop no longer runs out. -/
theorem ingest_loops_terminate :
    (∀ (env : Env) (ex : MarketSource) (status : Option String) (mp : Option Nat)
        (duck : DuckStore) (lance : LanceStore) (pages : Nat → FetchedMarketList),
      (∀ n, env.fetchResults n = Except.ok (pages n)) →
      (∃ N, (pages N).markets = [] ∨ (pages N).cursor = "" ∨
        some (pages N).cursor = pageCursorSeq pages N) →
      ∃ fuel, (ingest_loop env ex status mp fuel duck lance).2 ≠ LoopResult.outOfFuel) ∧
    (∀ (env : Env) (status : Option String) (mp : Option Nat)
        (duck : DuckStore) (lance : LanceStore) (epages : Nat → FetchedEventList),
      (∀ n, env.fetchEvents n = Except.ok (epages n)) →
      (∃ N, (epages N).events = [] ∨ (epages N).cursor = "" ∨
        some (epages N).cursor = eventCursorSeq epages N) →
      ∃ fuel, (ingest_events_loop env MarketSource.Kalshi status mp fuel duck lance).2 ≠
        LoopResult.outOfFuel) := by
  constructor
  · rintro env ex status mp duck lance pages henv ⟨N, hN⟩
    refine ⟨N + 1, ?_⟩
    apply ingestLoopAux_term env ex status mp pages henv (N + 1) none
      (initLoopState duck lance) N
    · rfl
    · exact Nat.zero_le N
    · rintro ⟨h1, h2, h3⟩
      rcases hN with h | h | h
      · exact h1 h
      · exact h2 h
      · exact h3 h
    · show N < (initLoopState duck lance).fetchIdx + (N + 1)
      simp [initLoopState]
  · rintro env status mp duck lance epages henv ⟨N, hN⟩
    refine ⟨N + 1, ?_⟩
    apply ingestEventsLoopAux_term env status mp epages henv (N + 1) none
      (initEventsLoopState duck lance) N
    · rfl
    · exact Nat.zero_le N
    · rintro ⟨h1, h2, h3⟩
      rcases hN with h | h | h
      · exact h1 h
      · exact h2 h
      · exact h3 h
    · show N < (initEventsLoopState duck lance).fetchIdx + (N + 1)
      simp [initEventsLoopState]

/-- An environment whose sources immediately return an empty final page. -/
def envEmptyPages : Env :=
  { fetchResults := fun _ => Except.ok { cursor := "", markets := [] },
    fetchEvents := fun _ => Except.ok { cursor := "", events := [] },
    cancel := none,
    embed := fun _ => Except.ok [] }

/-- Witness for C1 at a concrete empty-page source. -/
theorem ingest_loops_terminate_witness :
    (∃ fuel, (ingest_loop envEmptyPages MarketSource.Kalshi (some "active") none fuel
      (DuckStore.mk [] []) LanceStore.connect).2 ≠ LoopResult.outOfFuel) ∧
    (∃ fuel, (ingest_events_loop envEmptyPages MarketSource.Kalshi (some "active") none fuel
      (DuckStore.mk [] []) LanceStore.connect).2 ≠ LoopResult.outOfFuel) :=
  ⟨ingest_loops_terminate.1 envEmptyPages MarketSource.Kalshi (some "active") none
      (DuckStore.mk [] []) LanceStore.connect (fun _ => { cursor := "", markets := [] })
      (fun _ => rfl) ⟨0, Or.inl rfl⟩,
    ingest_loops_terminate.2 envEmptyPages (some "active") none (DuckStore.mk [] [])
      LanceStore.connect (fun _ => { cursor := "", events := [] }) (fun _ => rfl)
      ⟨0, Or.inl rfl⟩⟩

/-! ### The max-pages bound (C7) -/

theorem ingestLoopAux_calls_bound (env : Env) (ex : MarketSource) (status : Option String)
    (N : Nat) (pages : Nat → FetchedMarketList)
    (henv : ∀ n, env.fetchResults n = Except.ok (pages n)) :
    ∀ (fuel : Nat) (cursor : Option String) (st : LoopState),
      (ingestLoopAux env ex status (some N) fuel cursor st).1.fetchCalls.length ≤
        st.fetchCalls.length + (N - st.pageCount) := by
  intro fuel
  induction fuel with
  | zero =>
    intro cursor st
    simp [ingestLoopAux]
  | succ f ih =>
    intro cursor st
    rcases hit : ingestIterate env ex status (some N) cursor st with ⟨st2, o⟩
    have hadv := ingestIterate_advance env ex status (some N) cursor st st2 o pages henv hit
    cases o with
    | stop r =>
      have hres : ingestLoopAux env ex status (some N) (f + 1) cursor st = (st2, r) := by
        rw [ingestLoopAux, hit]
      rw [hres]
      show st2.fetchCalls.length ≤ st.fetchCalls.length + (N - st.pageCount)
      by_cases hmp : maxPagesReached (some N) st.pageCount = true
      · obtain ⟨rfl, _⟩ := (ingestIterate_shape env ex status (some N) cursor st st2 _ hit).2.2 hmp
        omega
      · have hlt : st.pageCount < N := by
          simp [maxPagesReached] at hmp
          omega
        have hlen := hadv.1
        omega
    | next c =>
      have hres : ingestLoopAux env ex status (some N) (f + 1) cursor st =
          ingestLoopAux env ex status (some N) f (some c) st2 := by
        rw [ingestLoopAux, hit]
      rw [hres]
      obtain ⟨hpc, hmp2, _, _, _, _, _⟩ := hadv.2 c rfl
      have hlt : st.pageCount < N := by
        simp [maxPagesReached] at hmp2
        omega
      have hlen := hadv.1
      have := ih (some c) st2
      rw [hpc] at this
      omega

theorem ingestEventsLoopAux_calls_bound (env : Env) (status : Option String)
    (N : Nat) (epages : Nat → FetchedEventList)
    (henv : ∀ n, env.fetchEvents n = Except.ok (epages n)) :
    ∀ (fuel : Nat) (cursor : Option String) (st : EventsLoopState),
      (ingestEventsLoopAux env MarketSource.Kalshi status (some N) fuel cursor st).1.fetchIdx ≤
        st.fetchIdx + (N - st.pageCount) := by
  intro fuel
  induction fuel with
  | zero =>
    intro cursor st
    simp [ingestEventsLoopAux]
  | succ f ih =>
    intro cursor st
    rcases hit : eventsIterate env MarketSource.Kalshi status (some N) cursor st with ⟨st2, o⟩
    have hadv := eventsIterate_advance env status (some N) cursor st st2 o epages henv hit
    cases o with
    | stop r =>
      have hres : ingestEventsLoopAux env MarketSource.Kalshi status (some N) (f + 1) cursor st =
          (st2, r) := by
        rw [ingestEventsLoopAux, hit]
      rw [hres]
      show st2.fetchIdx ≤ st.fetchIdx + (N - st.pageCount)
      by_cases hmp : maxPagesReached (some N) st.pageCount = true
      · obtain ⟨rfl, _⟩ := (eventsIterate_shape env status (some N) cursor st st2 _ hit).2.2 hmp
        omega
      · have hlt : st.pageCount < N := by
          simp [maxPagesReached] at hmp
          omega
        have hlen := hadv.1
        omega
    | next c =>
      have hres : ingestEventsLoopAux env MarketSource.Kalshi status (some N) (f + 1) cursor st =
          ingestEventsLoopAux env MarketSource.Kalshi status (some N) f (some c) st2 := by
        rw [ingestEventsLoopAux, hit]
      rw [hres]
      obtain ⟨hpc, hmp2, _, _, _, _, _⟩ := hadv.2 c rfl
      have hlt : st.pageCount < N := by
        simp [maxPagesReached] at hmp2
        omega
      have hlen := hadv.1
      have := ih (some c) st2
      rw [hpc] at this
      omega

theorem buildTasks_maxPages (exchanges : List MarketSource) (statuses : List String)
    (mp : Option Nat) : ∀ t ∈ buildTasks exchanges statuses mp, t.maxPages = mp := by
  have hstat : ∀ (ex : MarketSource) (sts : List String) (t : TaskSpec),
      t ∈ sts.foldr (fun s acc2 =>
        [({ exchange := ex, kind := RecordKind.markets, status := some s,
            maxPages := mp } : TaskSpec)] ++
        (if ex = MarketSource.Kalshi then
          [({ exchange := ex, kind := RecordKind.events, status := some s,
              maxPages := mp } : TaskSpec)]
        else []) ++ acc2) [] →
      t.maxPages = mp := by
    intro ex sts
    induction sts with
    | nil =>
      intro t ht
      simp at ht
    | cons s srest ihs =>
      intro t ht
      rw [List.foldr_cons] at ht
      by_cases hk : ex = MarketSource.Kalshi
      · rw [if_pos hk] at ht
        simp only [List.cons_append, List.nil_append, List.mem_cons] at ht
        rcases ht with rfl | rfl | ht
        · rfl
        · rfl
        · exact ihs t ht
      · rw [if_neg hk] at ht
        simp only [List.cons_append, List.nil_append, List.mem_cons] at ht
        rcases ht with rfl | ht
        · rfl
        · exact ihs t ht
  have hex : ∀ (exs : List MarketSource) (t : TaskSpec),
      t ∈ exs.foldr (fun exchange acc =>
        (if exchange = MarketSource.Polymarket then
          [({ exchange := exchange, kind := RecordKind.markets, status := none,
              maxPages := mp } : TaskSpec)]
        else
          (effectiveStatuses statuses).foldr (fun s acc2 =>
            [({ exchange := exchange, kind := RecordKind.markets, status := some s,
                maxPages := mp } : TaskSpec)] ++
            (if exchange = MarketSource.Kalshi then
              [({ exchange := exchange, kind := RecordKind.events, status := some s,
                  maxPages := mp } : TaskSpec)]
            else []) ++ acc2) []) ++ acc) [] →
      t.maxPages = mp := by
    intro exs
    induction exs with
    | nil =>
      intro t ht
      simp at ht
    | cons ex rest ih =>
      intro t ht
      rw [List.foldr_cons] at ht
      rcases List.mem_append.mp ht with hhd | htl
      · by_cases hpm : ex = MarketSource.Polymarket
        · rw [if_pos hpm] at hhd
          rcases List.mem_singleton.mp hhd with rfl
          rfl
        · rw [if_neg hpm] at hhd
          exact hstat ex (effectiveStatuses statuses) t hhd
      · exact ih t htl
  intro t ht
  exact hex (effectiveExchanges exchanges) t ht

/-- An ever-advancing mock page stream: page n is non-empty and its cursor is
the distinct token `"c" ++ n`. -/
def unboundedPages (n : Nat) : FetchedMarketList :=
  { cursor := "c" ++ toString n, markets := [mkDemoMarket ("T" ++ toString n) "Kalshi" "t"] }

/-- An ever-advancing mock event page stream. -/
def unboundedEventPages (n : Nat) : FetchedEventList :=
  { cursor := "c" ++ toString n,
    events := [{ ticker := "E" ++ toString n, source := "Kalshi", title := "t",
                 description := "d", start_date := "s", end_date := "e", url := "u" }] }

/-- The environment serving those unbounded streams. -/
def envUnbounded : Env :=
  { fetchResults := fun n => Except.ok (unboundedPages n),
    fetchEvents := fun n => Except.ok (unboundedEventPages n),
    cancel := none,
    embed := fun texts => Except.ok (texts.map (fun _ => List.replicate VECTOR_DIM 0.0)) }

/-- C7: `maxPages = N` bounds one orchestrator task to at most N fetch calls
even against an unbounded stream of successfully advancing pages — the
markets loop records at most N fetch commands and the events loop performs at
most N fetch attempts — and the bound is handed unchanged to every task of
the fan-out (each task is bounded independently; it is not a global bound). -/
theorem max_pages_bounds_fetches :
    (∀ (env : Env) (ex : MarketSource) (status : Option String) (N fuel : Nat)
        (duck : DuckStore) (lance : LanceStore) (pages : Nat → FetchedMarketList),
      (∀ n, env.fetchResults n = Except.ok (pages n)) →
      (ingest_loop env ex status (some N) fuel duck lance).1.fetchCalls.length ≤ N) ∧
    (∀ (env : Env) (status : Option String) (N fuel : Nat)
        (duck : DuckStore) (lance : LanceStore) (epages : Nat → FetchedEventList),
      (∀ n, env.fetchEvents n = Except.ok (epages n)) →
      (ingest_events_loop env MarketSource.Kalshi status (some N) fuel duck lance).1.fetchIdx ≤ N) ∧
    (∀ (exchanges : List MarketSource) (statuses : List String) (mp : Option Nat),
      ∀ t ∈ buildTasks exchanges statuses mp, t.maxPages = mp) := by
  refine ⟨?_, ?_, buildTasks_maxPages⟩
  · intro env ex status N fuel duck lance pages henv
    have := ingestLoopAux_calls_bound env ex status N pages henv fuel none
      (initLoopState duck lance)
    simpa [ingest_loop, initLoopState] using this
  · intro env status N fuel duck lance epages henv
    have := ingestEventsLoopAux_calls_bound env status N epages henv fuel none
      (initEventsLoopState duck lance)
    simpa [ingest_events_loop, initEventsLoopState] using this

/-- Witness for C7: each part applied at a concrete unbounded advancing
source, bound N = 1, and a concrete fan-out construction. -/
theorem max_pages_bounds_fetches_witness :
    ((ingest_loop envUnbounded MarketSource.Kalshi (some "active") (some 1) 10
        (DuckStore.mk [] []) LanceStore.connect).1.fetchCalls.length ≤ 1) ∧
    ((ingest_events_loop envUnbounded MarketSource.Kalshi (some "active") (some 1) 10
        (DuckStore.mk [] []) LanceStore.connect).1.fetchIdx ≤ 1) ∧
    (∀ t ∈ buildTasks [] [] (some 1), t.maxPages = some 1) :=
  ⟨max_pages_bounds_fetches.1 envUnbounded MarketSource.Kalshi (some "active") 1 10
      (DuckStore.mk [] []) LanceStore.connect unboundedPages (fun _ => rfl),
    max_pages_bounds_fetches.2.1 envUnbounded (some "active") 1 10
      (DuckStore.mk [] []) LanceStore.connect unboundedEventPages (fun _ => rfl),
    max_pages_bounds_fetches.2.2 [] [] (some 1)⟩

/-! ### Status translation (C5) -/

theorem ingestLoopAux_calls_spec (env : Env) (ex : MarketSource) (status : Option String)
    (mp : Option Nat) :
    ∀ (fuel : Nat) (cursor : Option String) (st : LoopState),
      (∀ c ∈ st.fetchCalls, c.exchange = ex ∧ c.limit = 100 ∧
        c.status = status.map (translateStatus ex)) →
      ∀ c ∈ (ingestLoopAux env ex status mp fuel cursor st).1.fetchCalls,
        c.exchange = ex ∧ c.limit = 100 ∧ c.status = status.map (translateStatus ex) := by
  intro fuel
  induction fuel with
  | zero =>
    intro cursor st hinv
    simpa [ingestLoopAux] using hinv
  | succ f ih =>
    intro cursor st hinv
    rcases hit : ingestIterate env ex status mp cursor st with ⟨st2, o⟩
    rcases (ingestIterate_shape env ex status mp cursor st st2 o hit).1 with ⟨n, hn⟩
    have hinv2 : ∀ c ∈ st2.fetchCalls, c.exchange = ex ∧ c.limit = 100 ∧
        c.status = status.map (translateStatus ex) := by
      intro c hc
      rw [hn] at hc
      rcases List.mem_append.mp hc with h | h
      · exact hinv c h
      · rw [List.eq_of_mem_replicate h]
        exact ⟨rfl, rfl, rfl⟩
    cases o with
    | stop r =>
      have hres : ingestLoopAux env ex status mp (f + 1) cursor st = (st2, r) := by
        rw [ingestLoopAux, hit]
      rw [hres]
      exact hinv2
    | next c2 =>
      have hres : ingestLoopAux env ex status mp (f + 1) cursor st =
          ingestLoopAux env ex status mp f (some c2) st2 := by
        rw [ingestLoopAux, hit]
      rw [hres]
      exact ih (some c2) st2 hinv2

theorem ingestEventsLoopAux_calls_spec (env : Env) (status : Option String)
    (mp : Option Nat) :
    ∀ (fuel : Nat) (cursor : Option String) (st : EventsLoopState),
      (∀ c ∈ st.clientCalls, c.limit = 100 ∧ c.status = FetchEvents.apiStatus status) →
      ∀ c ∈ (ingestEventsLoopAux env MarketSource.Kalshi status mp fuel cursor st).1.clientCalls,
        c.limit = 100 ∧ c.status = FetchEvents.apiStatus status := by
  intro fuel
  induction fuel with
  | zero =>
    intro cursor st hinv
    simpa [ingestEventsLoopAux] using hinv
  | succ f ih =>
    intro cursor st hinv
    rcases hit : eventsIterate env MarketSource.Kalshi status mp cursor st with ⟨st2, o⟩
    rcases (eventsIterate_shape env status mp cursor st st2 o hit).1 with ⟨n, hn⟩
    have hinv2 : ∀ c ∈ st2.clientCalls, c.limit = 100 ∧
        c.status = FetchEvents.apiStatus status := by
      intro c hc
      rw [hn] at hc
      rcases List.mem_append.mp hc with h | h
      · exact hinv c h
      · rw [List.eq_of_mem_replicate h]
        exact ⟨rfl, rfl⟩
    cases o with
    | stop r =>
      have hres : ingestEventsLoopAux env MarketSource.Kalshi status mp (f + 1) cursor st =
          (st2, r) := by
        rw [ingestEventsLoopAux, hit]
      rw [hres]
      exact hinv2
    | next c2 =>
      have hres : ingestEventsLoopAux env MarketSource.Kalshi status mp (f + 1) cursor st =
          ingestEventsLoopAux env MarketSource.Kalshi status mp f (some c2) st2 := by
        rw [ingestEventsLoopAux, hit]
      rw [hres]
      exact ih (some c2) st2 hinv2

/-- C5: the unified status `"active"` is translated to the source token
`"open"` exactly for Kalshi and any other (source, status) pair passes
through unchanged; every `FetchMarkets` command any run of `ingest_loop`
issues carries the translated status, and every Kalshi client call any run of
`ingest_events_loop` issues carries the status translated by
`FetchEvents::execute`. -/
theorem status_translation :
    (translateStatus MarketSource.Kalshi "active" = "open") ∧
    (∀ (ex : MarketSource) (s : String), ¬(ex = MarketSource.Kalshi ∧ s = "active") →
      translateStatus ex s = s) ∧
    (∀ (env : Env) (ex : MarketSource) (status : Option String) (mp : Option Nat)
        (fuel : Nat) (duck : DuckStore) (lance : LanceStore),
      ∀ c ∈ (ingest_loop env ex status mp fuel duck lance).1.fetchCalls,
        c.exchange = ex ∧ c.limit = 100 ∧ c.status = status.map (translateStatus ex)) ∧
    (FetchEvents.apiStatus (some "active") = some "open") ∧
    (∀ s : String, s ≠ "active" → FetchEvents.apiStatus (some s) = some s) ∧
    (FetchEvents.apiStatus none = none) ∧
    (∀ (env : Env) (status : Option String) (mp : Option Nat) (fuel : Nat)
        (duck : DuckStore) (lance : LanceStore),
      ∀ c ∈ (ingest_events_loop env MarketSource.Kalshi status mp fuel duck lance).1.clientCalls,
        c.limit = 100 ∧ c.status = FetchEvents.apiStatus status) := by
  refine ⟨rfl, ?_, ?_, rfl, ?_, rfl, ?_⟩
  · intro ex s h
    unfold translateStatus
    rw [if_neg h]
  · intro env ex status mp fuel duck lance
    exact ingestLoopAux_calls_spec env ex status mp fuel none (initLoopState duck lance)
      (fun c hc => absurd hc (List.not_mem_nil c))
  · intro s hs
    simp [FetchEvents.apiStatus, hs]
  · intro env status mp fuel duck lance
    exact ingestEventsLoopAux_calls_spec env status mp fuel none
      (initEventsLoopState duck lance) (fun c hc => absurd hc (List.not_mem_nil c))

/-- Witness for C5: the pass-through half and the loop-trace halves applied
at concrete inputs. -/
theorem status_translation_witness :
    (translateStatus MarketSource.Polymarket "active" = "active") ∧
    (translateStatus MarketSource.Kalshi "closed" = "closed") ∧
    (∀ c ∈ (ingest_loop envEmptyPages MarketSource.Kalshi (some "active") none 3
        (DuckStore.mk [] []) LanceStore.connect).1.fetchCalls,
      c.exchange = MarketSource.Kalshi ∧ c.limit = 100 ∧
        c.status = (some "active").map (translateStatus MarketSource.Kalshi)) ∧
    (FetchEvents.apiStatus (some "closed") = some "closed") ∧
    (∀ c ∈ (ingest_events_loop envEmptyPages MarketSource.Kalshi (some "active") none 3
        (DuckStore.mk [] []) LanceStore.connect).1.clientCalls,
      c.limit = 100 ∧ c.status = FetchEvents.apiStatus (some "active")) :=
  ⟨status_translation.2.1 MarketSource.Polymarket "active" (by simp),
    status_translation.2.1 MarketSource.Kalshi "closed" (by simp),
    status_translation.2.2.1 envEmptyPages MarketSource.Kalshi (some "active") none 3
      (DuckStore.mk [] []) LanceStore.connect,
    status_translation.2.2.2.2.1 "closed" (by simp),
    status_translation.2.2.2.2.2.2 envEmptyPages (some "active") none 3
      (DuckStore.mk [] []) LanceStore.connect⟩

/-! ### Dual-store ordering on embedder failure (C4) -/

/-- C4: for every successfully fetched non-empty page, the DuckDB batch write
commits before the embedding step and before any LanceDB append — if the
embedder fails on that page, the loop returns that error with the page
already committed to the table store and the vector store untouched.
Both loops. -/
theorem table_commit_precedes_vector_write :
    (∀ (env : Env) (ex : MarketSource) (status : Option String) (mp : Option Nat)
        (cursor : Option String) (st : LoopState) (page : FetchedMarketList)
        (e : String) (fuel : Nat),
      maxPagesReached mp st.pageCount = false →
      cancelStep env st = (st, Except.ok ()) →
      env.fetchResults st.fetchIdx = Except.ok page →
      page.markets ≠ [] →
      env.embed (page.markets.map marketText) = Except.error e →
      ∃ st', ingestLoopAux env ex status mp (fuel + 1) cursor st =
          (st', LoopResult.error e) ∧
        st'.duck = st.duck.insert_batch page.markets ∧
        st'.lance = st.lance) ∧
    (∀ (env : Env) (status : Option String) (mp : Option Nat)
        (cursor : Option String) (st : EventsLoopState) (page : FetchedEventList)
        (e : String) (fuel : Nat),
      maxPagesReached mp st.pageCount = false →
      cancelStepE env st = (st, Except.ok ()) →
      env.fetchEvents st.fetchIdx = Except.ok page →
      page.events ≠ [] →
      env.embed (page.events.map eventText) = Except.error e →
      ∃ st', ingestEventsLoopAux env MarketSource.Kalshi status mp (fuel + 1) cursor st =
          (st', LoopResult.error e) ∧
        st'.duck = st.duck.insert_events_batch page.events ∧
        st'.lance = st.lance) := by
  constructor
  · intro env ex status mp cursor st page e fuel hmp hcs hf hne hee
    have hempty : page.markets.isEmpty = false := by
      cases hpm : page.markets with
      | nil => exact absurd hpm hne
      | cons a l => rfl
    have hit : ingestIterate env ex status mp cursor st =
        ({ recordFetch (marketsFetchCall ex cursor status) st with
            duck := st.duck.insert_batch page.markets,
            totalMarkets := st.totalMarkets + page.markets.length },
          IterOut.stop (LoopResult.error e)) := by
      unfold ingestIterate
      rw [if_neg (by rw [hmp]; simp)]
      rw [hcs]
      simp only []
      rw [fetchMarketsWithRetry_ok env (marketsFetchCall ex cursor status) 0 5 st page hf]
      simp only []
      rw [if_neg (by rw [hempty]; simp)]
      rw [hee]
      rfl
    refine ⟨{ recordFetch (marketsFetchCall ex cursor status) st with
        duck := st.duck.insert_batch page.markets,
        totalMarkets := st.totalMarkets + page.markets.length }, ?_, rfl, rfl⟩
    rw [ingestLoopAux, hit]
  · intro env status mp cursor st page e fuel hmp hcs hf hne hee
    have hempty : page.events.isEmpty = false := by
      cases hpm : page.events with
      | nil => exact absurd hpm hne
      | cons a l => rfl
    have hit : eventsIterate env MarketSource.Kalshi status mp cursor st =
        ({ recordEventsFetch cursor status st with
            duck := st.duck.insert_events_batch page.events,
            totalEvents := st.totalEvents + page.events.length },
          IterOut.stop (LoopResult.error e)) := by
      unfold eventsIterate
      rw [if_neg (by rw [hmp]; simp)]
      rw [hcs]
      simp only []
      rw [fetchEventsWithRetry_ok env cursor status 0 5 st page hf]
      simp only []
      rw [if_neg (by rw [hempty]; simp)]
      rw [hee]
      rfl
    refine ⟨{ recordEventsFetch cursor status st with
        duck := st.duck.insert_events_batch page.events,
        totalEvents := st.totalEvents + page.events.length }, ?_, rfl, rfl⟩
    rw [ingestEventsLoopAux, hit]

/-- A one-market page for witnesses. -/
def demoPage : FetchedMarketList :=
  { cursor := "c1", markets := [mkDemoMarket "T1" "Kalshi" "t"] }

/-- A one-event page for witnesses. -/
def demoEventPage : FetchedEventList :=
  { cursor := "c1",
    events := [{ ticker := "E1", source := "Kalshi", title := "t", description := "d",
                 start_date := "s", end_date := "e", url := "u" }] }

/-- An environment whose fetches succeed and whose embedder always fails. -/
def envEmbedFail : Env :=
  { fetchResults := fun _ => Except.ok demoPage,
    fetchEvents := fun _ => Except.ok demoEventPage,
    cancel := none,
    embed := fun _ => Except.error "embedder exploded" }

/-- Witness for C4 at a concrete embed-failing environment. -/
theorem table_commit_precedes_vector_write_witness :
    (∃ st', ingestLoopAux envEmbedFail MarketSource.Kalshi (some "active") none 1 none
        demoLoopState = (st', LoopResult.error "embedder exploded") ∧
      st'.duck = demoLoopState.duck.insert_batch demoPage.markets ∧
      st'.lance = demoLoopState.lance) ∧
    (∃ st', ingestEventsLoopAux envEmbedFail MarketSource.Kalshi (some "active") none 1 none
        demoEventsState = (st', LoopResult.error "embedder exploded") ∧
      st'.duck = demoEventsState.duck.insert_events_batch demoEventPage.events ∧
      st'.lance = demoEventsState.lance) :=
  ⟨table_commit_precedes_vector_write.1 envEmbedFail MarketSource.Kalshi (some "active") none
      none demoLoopState demoPage "embedder exploded" 0 rfl rfl rfl (by simp [demoPage]) rfl,
    table_commit_precedes_vector_write.2 envEmbedFail (some "active") none
      none demoEventsState demoEventPage "embedder exploded" 0 rfl rfl rfl
      (by simp [demoEventPage]) rfl⟩

/-! ### Zip-prefix write on a short embedding batch (C10) -/

theorem create_record_batch_of_dims (recs : List MarketEmbedding)
    (h : ∀ r ∈ recs, r.vector.length = VECTOR_DIM) :
    create_record_batch recs = Except.ok recs := by
  induction recs with
  | nil => rfl
  | cons m ms ih =>
    have hm : ¬m.vector.length ≠ VECTOR_DIM := by
      rw [h m (List.mem_cons_self m ms)]
      exact fun hh => hh rfl
    have hms := ih (fun r hr => h r (List.mem_cons_of_mem m hr))
    rw [create_record_batch.eq_def]
    simp only [if_neg hm, hms]

theorem add_markets_ok (s : LanceStore) (recs : List MarketEmbedding)
    (h : ∀ r ∈ recs, r.vector.length = VECTOR_DIM) :
    ∃ s2, s.add_markets recs = Except.ok s2 ∧
      s2.marketRows = s.marketRows ++ recs ∧ s2.events = s.events := by
  by_cases hemp : recs.isEmpty = true
  · refine ⟨s, ?_, ?_, rfl⟩
    · rw [LanceStore.add_markets, if_pos hemp]
    · cases recs with
      | nil => simp
      | cons a l => cases hemp
  · rw [LanceStore.add_markets, if_neg hemp, create_record_batch_of_dims recs h]
    match hm : s.markets with
    | some rows =>
      refine ⟨{ s with markets := some (rows ++ recs) }, rfl, ?_, rfl⟩
      simp [LanceStore.marketRows, hm]
    | none =>
      refine ⟨{ s with markets := some recs }, rfl, ?_, rfl⟩
      simp [LanceStore.marketRows, hm]

theorem create_events_record_batch_of_dims (recs : List EventEmbedding)
    (h : ∀ r ∈ recs, r.vector.length = VECTOR_DIM) :
    create_events_record_batch recs = Except.ok recs := by
  induction recs with
  | nil => rfl
  | cons m ms ih =>
    have hm : ¬m.vector.length ≠ VECTOR_DIM := by
      rw [h m (List.mem_cons_self m ms)]
      exact fun hh => hh rfl
    have hms := ih (fun r hr => h r (List.mem_cons_of_mem m hr))
    rw [create_events_record_batch.eq_def]
    simp only [if_neg hm, hms]

theorem add_events_ok (s : LanceStore) (recs : List EventEmbedding)
    (h : ∀ r ∈ recs, r.vector.length = VECTOR_DIM) :
    ∃ s2, s.add_events recs = Except.ok s2 ∧
      s2.eventRows = s.eventRows ++ recs ∧ s2.markets = s.markets := by
  by_cases hemp : recs.isEmpty = true
  · refine ⟨s, ?_, ?_, rfl⟩
    · rw [LanceStore.add_events, if_pos hemp]
    · cases recs with
      | nil => simp
      | cons a l => cases hemp
  · rw [LanceStore.add_events, if_neg hemp, create_events_record_batch_of_dims recs h]
    match hm : s.events with
    | some rows =>
      refine ⟨{ s with events := some (rows ++ recs) }, rfl, ?_, rfl⟩
      simp [LanceStore.eventRows, hm]
    | none =>
      refine ⟨{ s with events := some recs }, rfl, ?_, rfl⟩
      simp [LanceStore.eventRows, hm]

/-- C10: when `embed_batch` returns fewer vectors than the page has records,
the loop writes exactly the zipped prefix (one embedding per paired record) to
the vector store and completes the page without any error — the unpaired
trailing records are silently omitted from the vector store while the whole
page stays in the table store; no length check is performed. Both loops. -/
theorem embed_shortfall_zip_trunc :
    (∀ (env : Env) (ex : MarketSource) (status : Option String) (mp : Option Nat)
        (cursor : Option String) (st : LoopState) (page : FetchedMarketList)
        (vectors : List (List Float)),
      maxPagesReached mp st.pageCount = false →
      cancelStep env st = (st, Except.ok ()) →
      env.fetchResults st.fetchIdx = Except.ok page →
      page.markets ≠ [] →
      env.embed (page.markets.map marketText) = Except.ok vectors →
      vectors.length < page.markets.length →
      (∀ v ∈ vectors, v.length = VECTOR_DIM) →
      ∃ st' out, ingestIterate env ex status mp cursor st = (st', out) ∧
        (∀ e, out ≠ IterOut.stop (LoopResult.error e)) ∧
        st'.duck = st.duck.insert_batch page.markets ∧
        st'.lance.marketRows = st.lance.marketRows ++
          ((page.markets.zip vectors).map (fun p => marketEmbeddingOf ex p.1 p.2)) ∧
        (page.markets.zip vectors).length = vectors.length) ∧
    (∀ (env : Env) (status : Option String) (mp : Option Nat)
        (cursor : Option String) (st : EventsLoopState) (page : FetchedEventList)
        (vectors : List (List Float)),
      maxPagesReached mp st.pageCount = false →
      cancelStepE env st = (st, Except.ok ()) →
      env.fetchEvents st.fetchIdx = Except.ok page →
      page.events ≠ [] →
      env.embed (page.events.map eventText) = Except.ok vectors →
      vectors.length < page.events.length →
      (∀ v ∈ vectors, v.length = VECTOR_DIM) →
      ∃ st' out, eventsIterate env MarketSource.Kalshi status mp cursor st = (st', out) ∧
        (∀ e, out ≠ IterOut.stop (LoopResult.error e)) ∧
        st'.duck = st.duck.insert_events_batch page.events ∧
        st'.lance.eventRows = st.lance.eventRows ++
          ((page.events.zip vectors).map
            (fun p => eventEmbeddingOf MarketSource.Kalshi p.1 p.2)) ∧
        (page.events.zip vectors).length = vectors.length) := by
  constructor
  · intro env ex status mp cursor st page vectors hmp hcs hf hne hemb hlen hdim
    have hempty : page.markets.isEmpty = false := by
      cases hpm : page.markets with
      | nil => exact absurd hpm hne
      | cons a l => rfl
    have hdims : ∀ r ∈ (page.markets.zip vectors).map
        (fun p => marketEmbeddingOf ex p.1 p.2), r.vector.length = VECTOR_DIM := by
      intro r hr
      rcases List.mem_map.mp hr with ⟨p, hp, rfl⟩
      exact hdim p.2 (List.of_mem_zip hp).2
    rcases add_markets_ok st.lance
        ((page.markets.zip vectors).map (fun p => marketEmbeddingOf ex p.1 p.2)) hdims with
      ⟨lance2, hadd, hrows, _⟩
    by_cases hcur : page.cursor = "" ∨ some page.cursor = cursor
    · have hit0 : ingestIterate env ex status mp cursor st =
          ({ recordFetch (marketsFetchCall ex cursor status) st with
              duck := st.duck.insert_batch page.markets,
              totalMarkets := st.totalMarkets + page.markets.length,
              lance := lance2 }, IterOut.stop LoopResult.ok) := by
        unfold ingestIterate
        rw [if_neg (by rw [hmp]; simp)]
        rw [hcs]
        simp only []
        rw [fetchMarketsWithRetry_ok env (marketsFetchCall ex cursor status) 0 5 st page hf]
        simp only []
        rw [if_neg (by rw [hempty]; simp)]
        rw [hemb]
        simp only []
        rw [show (recordFetch (marketsFetchCall ex cursor status) st).lance = st.lance from rfl,
          hadd]
        simp only []
        rw [if_pos hcur]
        rfl
      refine ⟨_, _, hit0, ?_, rfl, ?_, ?_⟩
      · intro e he
        cases he
      · show lance2.marketRows = _
        rw [hrows]
      · rw [List.length_zip]
        omega
    · have hit0 : ingestIterate env ex status mp cursor st =
          ({ recordFetch (marketsFetchCall ex cursor status) st with
              duck := st.duck.insert_batch page.markets,
              totalMarkets := st.totalMarkets + page.markets.length,
              lance := lance2,
              pageCount := (recordFetch (marketsFetchCall ex cursor status) st).pageCount + 1,
              sleepsMs := (recordFetch (marketsFetchCall ex cursor status) st).sleepsMs ++
                [100] }, IterOut.next page.cursor) := by
        unfold ingestIterate
        rw [if_neg (by rw [hmp]; simp)]
        rw [hcs]
        simp only []
        rw [fetchMarketsWithRetry_ok env (marketsFetchCall ex cursor status) 0 5 st page hf]
        simp only []
        rw [if_neg (by rw [hempty]; simp)]
        rw [hemb]
        simp only []
        rw [show (recordFetch (marketsFetchCall ex cursor status) st).lance = st.lance from rfl,
          hadd]
        simp only []
        rw [if_neg hcur]
        rfl
      refine ⟨_, _, hit0, ?_, rfl, ?_, ?_⟩
      · intro e he
        cases he
      · show lance2.marketRows = _
        rw [hrows]
      · rw [List.length_zip]
        omega
  · intro env status mp cursor st page vectors hmp hcs hf hne hemb hlen hdim
    have hempty : page.events.isEmpty = false := by
      cases hpm : page.events with
      | nil => exact absurd hpm hne
      | cons a l => rfl
    have hdims : ∀ r ∈ (page.events.zip vectors).map
        (fun p => eventEmbeddingOf MarketSource.Kalshi p.1 p.2),
        r.vector.length = VECTOR_DIM := by
      intro r hr
      rcases List.mem_map.mp hr with ⟨p, hp, rfl⟩
      exact hdim p.2 (List.of_mem_zip hp).2
    rcases add_events_ok st.lance
        ((page.events.zip vectors).map
          (fun p => eventEmbeddingOf MarketSource.Kalshi p.1 p.2)) hdims with
      ⟨lance2, hadd, hrows, _⟩
    by_cases hcur : page.cursor = "" ∨ some page.cursor = cursor
    · have hit0 : eventsIterate env MarketSource.Kalshi status mp cursor st =
          ({ recordEventsFetch cursor status st with
              duck := st.duck.insert_events_batch page.events,
              totalEvents := st.totalEvents + page.events.length,
              lance := lance2 }, IterOut.stop LoopResult.ok) := by
        unfold eventsIterate
        rw [if_neg (by rw [hmp]; simp)]
        rw [hcs]
        simp only []
        rw [fetchEventsWithRetry_ok env cursor status 0 5 st page hf]
        simp only []
        rw [if_neg (by rw [hempty]; simp)]
        rw [hemb]
        simp only []
        rw [show (recordEventsFetch cursor status st).lance = st.lance from rfl, hadd]
        simp only []
        rw [if_pos hcur]
        rfl
      refine ⟨_, _, hit0, ?_, rfl, ?_, ?_⟩
      · intro e he
        cases he
      · show lance2.eventRows = _
        rw [hrows]
      · rw [List.length_zip]
        omega
    · have hit0 : eventsIterate env MarketSource.Kalshi status mp cursor st =
          ({ recordEventsFetch cursor status st with
              duck := st.duck.insert_events_batch page.events,
              totalEvents := st.totalEvents + page.events.length,
              lance := lance2,
              pageCount := (recordEventsFetch cursor status st).pageCount + 1,
              sleepsMs := (recordEventsFetch cursor status st).sleepsMs ++ [100] },
            IterOut.next page.cursor) := by
        unfold eventsIterate
        rw [if_neg (by rw [hmp]; simp)]
        rw [hcs]
        simp only []
        rw [fetchEventsWithRetry_ok env cursor status 0 5 st page hf]
        simp only []
        rw [if_neg (by rw [hempty]; simp)]
        rw [hemb]
        simp only []
        rw [show (recordEventsFetch cursor status st).lance = st.lance from rfl, hadd]
        simp only []
        rw [if_neg hcur]
        rfl
      refine ⟨_, _, hit0, ?_, rfl, ?_, ?_⟩
      · intro e he
        cases he
      · show lance2.eventRows = _
        rw [hrows]
      · rw [List.length_zip]
        omega

/-- A two-market page for the C10 witness. -/
def demoTwoPage : FetchedMarketList :=
  { cursor := "", markets := [mkDemoMarket "T1" "Kalshi" "a", mkDemoMarket "T2" "Kalshi" "b"] }

/-- A two-event page for the C10 witness. -/
def demoTwoEventPage : FetchedEventList :=
  { cursor := "",
    events := [{ ticker := "E1", source := "Kalshi", title := "t", description := "d",
                 start_date := "s", end_date := "e", url := "u" },
               { ticker := "E2", source := "Kalshi", title := "t2", description := "d2",
                 start_date := "s", end_date := "e", url := "u" }] }

/-- An environment whose embedder returns a single 384-dimensional vector for
any batch. -/
def envShortEmbed : Env :=
  { fetchResults := fun _ => Except.ok demoTwoPage,
    fetchEvents := fun _ => Except.ok demoTwoEventPage,
    cancel := none,
    embed := fun _ => Except.ok [List.replicate VECTOR_DIM 0.0] }

/-- Witness for C10: a two-record page embedded into a single vector. -/
theorem embed_shortfall_zip_trunc_witness :
    (∃ st' out, ingestIterate envShortEmbed MarketSource.Kalshi (some "active") none none
        demoLoopState = (st', out) ∧
      (∀ e, out ≠ IterOut.stop (LoopResult.error e)) ∧
      st'.duck = demoLoopState.duck.insert_batch demoTwoPage.markets ∧
      st'.lance.marketRows = demoLoopState.lance.marketRows ++
        ((demoTwoPage.markets.zip [List.replicate VECTOR_DIM 0.0]).map
          (fun p => marketEmbeddingOf MarketSource.Kalshi p.1 p.2)) ∧
      (demoTwoPage.markets.zip [List.replicate VECTOR_DIM (0.0 : Float)]).length =
        ([List.replicate VECTOR_DIM (0.0 : Float)]).length) ∧
    (∃ st' out, eventsIterate envShortEmbed MarketSource.Kalshi (some "active") none none
        demoEventsState = (st', out) ∧
      (∀ e, out ≠ IterOut.stop (LoopResult.error e)) ∧
      st'.duck = demoEventsState.duck.insert_events_batch demoTwoEventPage.events ∧
      st'.lance.eventRows = demoEventsState.lance.eventRows ++
        ((demoTwoEventPage.events.zip [List.replicate VECTOR_DIM 0.0]).map
          (fun p => eventEmbeddingOf MarketSource.Kalshi p.1 p.2)) ∧
      (demoTwoEventPage.events.zip [List.replicate VECTOR_DIM (0.0 : Float)]).length =
        ([List.replicate VECTOR_DIM (0.0 : Float)]).length) :=
  ⟨embed_shortfall_zip_trunc.1 envShortEmbed MarketSource.Kalshi (some "active") none none
      demoLoopState demoTwoPage [List.replicate VECTOR_DIM 0.0] rfl rfl rfl
      (by simp [demoTwoPage]) rfl (by simp [demoTwoPage])
      (by intro v hv; rw [List.mem_singleton.mp hv, List.length_replicate]),
    embed_shortfall_zip_trunc.2 envShortEmbed (some "active") none none
      demoEventsState demoTwoEventPage [List.replicate VECTOR_DIM 0.0] rfl rfl rfl
      (by simp [demoTwoEventPage]) rfl (by simp [demoTwoEventPage])
      (by intro v hv; rw [List.mem_singleton.mp hv, List.length_replicate])⟩

/-! ### The concurrency fan-out (C3) -/

theorem joinAll_fst (tasks : List FanoutTask) (s : Stores) :
    (joinAll tasks s).1 = tasks.foldl (fun st t => (t st).1) s := by
  induction tasks generalizing s with
  | nil => rfl
  | cons t ts ih =>
    show (joinAll (t :: ts) s).1 = ts.foldl (fun st t => (t st).1) (t s).1
    rw [← ih (t s).1]
    rfl

theorem joinAll_length (tasks : List FanoutTask) (s : Stores) :
    (joinAll tasks s).2.length = tasks.length := by
  induction tasks generalizing s with
  | nil => rfl
  | cons t ts ih =>
    show ((joinAll ts (t s).1).2.length + 1) = ts.length + 1
    rw [ih]

theorem firstError_error (results : List (Except String Unit)) (e : String)
    (h : firstError results = Except.error e) :
    ∃ pre post, results = pre ++ Except.error e :: post ∧ ∀ r ∈ pre, r = Except.ok () := by
  induction results with
  | nil => cases h
  | cons r rs ih =>
    match r with
    | .error e2 =>
      rw [show firstError (Except.error e2 :: rs) = Except.error e2 from rfl] at h
      cases h
      exact ⟨[], rs, rfl, by simp⟩
    | .ok u =>
      rw [show firstError (Except.ok u :: rs) = firstError rs from rfl] at h
      rcases ih h with ⟨pre, post, hsplit, hok⟩
      refine ⟨Except.ok () :: pre, post, ?_, ?_⟩
      · rw [hsplit]
        rfl
      · intro r2 hr2
        rcases List.mem_cons.mp hr2 with rfl | hmem
        · rfl
        · exact hok r2 hmem

theorem create_index_eq (s : LanceStore) (rows : List MarketEmbedding)
    (h : s.markets = some rows) :
    s.create_index = Except.ok { s with marketIndexBuilds := s.marketIndexBuilds + 1 } := by
  rw [LanceStore.create_index, h]

theorem create_events_index_eq (s : LanceStore) (rows : List EventEmbedding)
    (h : s.events = some rows) :
    s.create_events_index = Except.ok { s with eventIndexBuilds := s.eventIndexBuilds + 1 } := by
  rw [LanceStore.create_events_index, h]

/-- C3: the fan-out joins every spawned task — each task's effect on the
shared stores is applied and each task yields a result, even when a sibling
failed; the aggregate result is the first error in task-submission order (all
results before it are successes) with no index build; when every task
succeeded and both vector tables exist, the aggregate is success and each
record kind's index is built exactly once. -/
theorem fanout_first_error_and_index (tasks : List FanoutTask) (s : Stores) :
    ((joinAll tasks s).1 = tasks.foldl (fun st t => (t st).1) s) ∧
    ((joinAll tasks s).2.length = tasks.length) ∧
    (∀ e, firstError (joinAll tasks s).2 = Except.error e →
      IngestionEngine.run tasks s = ((joinAll tasks s).1, Except.error e) ∧
      ∃ pre post, (joinAll tasks s).2 = pre ++ Except.error e :: post ∧
        ∀ r ∈ pre, r = Except.ok ()) ∧
    (firstError (joinAll tasks s).2 = Except.ok () →
      ∀ (mrows : List MarketEmbedding) (erows : List EventEmbedding),
      (joinAll tasks s).1.lance.markets = some mrows →
      (joinAll tasks s).1.lance.events = some erows →
      ∃ l2, IngestionEngine.run tasks s =
          ({ (joinAll tasks s).1 with lance := l2 }, Except.ok ()) ∧
        l2.marketIndexBuilds = (joinAll tasks s).1.lance.marketIndexBuilds + 1 ∧
        l2.eventIndexBuilds = (joinAll tasks s).1.lance.eventIndexBuilds + 1 ∧
        l2.markets = (joinAll tasks s).1.lance.markets ∧
        l2.events = (joinAll tasks s).1.lance.events) := by
  refine ⟨joinAll_fst tasks s, joinAll_length tasks s, ?_, ?_⟩
  · intro e he
    constructor
    · unfold IngestionEngine.run
      rcases hj : joinAll tasks s with ⟨s1, results⟩
      rw [hj] at he
      simp only [] at he ⊢
      rw [he]
    · exact firstError_error _ e he
  · intro hok mrows erows hm he2
    rcases hj : joinAll tasks s with ⟨s1, results⟩
    have hm2 : s1.lance.markets = some mrows := by
      have := hm
      rw [hj] at this
      exact this
    have he3 : s1.lance.events = some erows := by
      have := he2
      rw [hj] at this
      exact this
    have hok2 : firstError results = Except.ok () := by
      have := hok
      rw [hj] at this
      exact this
    have hrun : IngestionEngine.run tasks s =
        ({ s1 with lance := { s1.lance with
            marketIndexBuilds := s1.lance.marketIndexBuilds + 1,
            eventIndexBuilds := s1.lance.eventIndexBuilds + 1 } }, Except.ok ()) := by
      unfold IngestionEngine.run
      rw [hj]
      simp only []
      rw [hok2]
      rw [create_index_eq s1.lance mrows hm2]
      simp only []
      have he4 : (LanceStore.mk s1.lance.markets s1.lance.events
          (s1.lance.marketIndexBuilds + 1) s1.lance.eventIndexBuilds).events = some erows := he3
      rw [create_events_index_eq _ erows he4]
    refine ⟨{ s1.lance with
        marketIndexBuilds := s1.lance.marketIndexBuilds + 1,
        eventIndexBuilds := s1.lance.eventIndexBuilds + 1 }, ?_, rfl, rfl, rfl, rfl⟩
    rw [hrun]

/-- A task that commits one demo market and succeeds. -/
def demoTaskOk : FanoutTask :=
  fun s => ({ s with duck := s.duck.insert_batch [mkDemoMarket "T1" "Kalshi" "a"] },
    Except.ok ())

/-- A task that fails without writing. -/
def demoTaskFail : FanoutTask :=
  fun s => (s, Except.error "boom")

/-- A second committing task, run after the failing one. -/
def demoTaskOk2 : FanoutTask :=
  fun s => ({ s with duck := s.duck.insert_batch [mkDemoMarket "T2" "Kalshi" "b"] },
    Except.ok ())

/-- Stores whose vector tables exist, for the all-success half of the C3
witness. -/
def demoStores : Stores :=
  { duck := DuckStore.mk [] [], lance := LanceStore.mk (some []) (some []) 0 0 }

/-- Witness for C3: a three-task fan-out whose middle task fails, and an
all-success fan-out that builds both indexes once. -/
theorem fanout_first_error_and_index_witness :
    (IngestionEngine.run [demoTaskOk, demoTaskFail, demoTaskOk2] demoStores =
        ((joinAll [demoTaskOk, demoTaskFail, demoTaskOk2] demoStores).1,
          Except.error "boom") ∧
      ∃ pre post, (joinAll [demoTaskOk, demoTaskFail, demoTaskOk2] demoStores).2 =
          pre ++ Except.error "boom" :: post ∧ ∀ r ∈ pre, r = Except.ok ()) ∧
    (∃ l2, IngestionEngine.run [demoTaskOk] demoStores =
        ({ (joinAll [demoTaskOk] demoStores).1 with lance := l2 }, Except.ok ()) ∧
      l2.marketIndexBuilds =
        (joinAll [demoTaskOk] demoStores).1.lance.marketIndexBuilds + 1 ∧
      l2.eventIndexBuilds =
        (joinAll [demoTaskOk] demoStores).1.lance.eventIndexBuilds + 1 ∧
      l2.markets = (joinAll [demoTaskOk] demoStores).1.lance.markets ∧
      l2.events = (joinAll [demoTaskOk] demoStores).1.lance.events) :=
  ⟨(fanout_first_error_and_index [demoTaskOk, demoTaskFail, demoTaskOk2] demoStores).2.2.1
      "boom" rfl,
    (fanout_first_error_and_index [demoTaskOk] demoStores).2.2.2 rfl [] [] rfl rfl⟩

end Unipred
